import Mathlib

/-!
Verification of the snapshot acquisition and canonicalization pipeline

A shallow embedding, in Lean 4, of the core functions of the
`neural-vol-hedging` data pipeline:

* `src/data/deribit_rest_30m.py` — slot alignment (`align_next_slot`), the
  retrying fetch worker inside `gather_order_books`, and the smile
  aggregator `build_smiles`;
* `src/data/normalize.py` — `parse_instrument_name`, `coalesce_columns`,
  `add_parsed_columns` and `standardize`;
* `src/data/cleaning.py` — `compute_mid_and_spread`, `enforce_bid_ask_rules`,
  `add_moneyness`, `flag_iv_outliers` and `filter_rename_columns`.

Modelling conventions:

* Python `datetime` values are modelled as microseconds since the epoch
  (a `ℕ`); `datetime.replace(second=0, microsecond=0)` becomes flooring to
  a minute boundary, `replace(minute=0)` flooring to an hour boundary.
* Numeric cell values are modelled as exact rationals (`ℚ`).  Where a claim
  depends on IEEE-754 special values (NaN as the missing-value marker,
  ±infinity from division by zero, `np.log` of non-positive arguments) we
  use the explicit carrier `PFloat` with `nan`/`pinf`/`ninf` constructors;
  where only missing-ness matters we use `Option ℚ` with `none` standing
  for a null/NaN cell.  The two zeroes of IEEE-754 are identified (all the
  zeroes reaching the modelled code have positive sign).
* A Python function that can raise is embedded with an `Except String`
  result; the error string names the exception.
* `pandas.DataFrame` is modelled column-positionally: a list of column
  names plus a list of rows, each row a list of cell values.
-/

deriving instance DecidableEq for Except

namespace NVH

/-! ## Scheduler: `align_next_slot` (deribit_rest_30m.py, lines 60–67) -/

/-- Microseconds per minute. -/
def usPerMin : ℕ := 60000000

/-- Microseconds per hour. -/
def usPerHour : ℕ := 3600000000

/-- `base = start.replace(second=0, microsecond=0)`: floor to the minute. -/
def alignBase (start : ℕ) : ℕ := start / usPerMin * usPerMin

/-- `k = (base.minute // step + 1) * step`. -/
def alignK (start minutes : ℕ) : ℕ :=
  (alignBase start / usPerMin % 60 / minutes + 1) * minutes

/-- `target = base.replace(minute=0) + timedelta(minutes=k)`. -/
def alignTarget (start minutes : ℕ) : ℕ :=
  alignBase start / usPerHour * usPerHour + alignK start minutes * usPerMin

/-- `align_next_slot(start, minutes)` from `deribit_rest_30m.py`:
floor `start` to the minute, step to the next multiple of `minutes`
counted from the top of the hour, and bump by one interval if the result
is not strictly in the future. -/
def align_next_slot (start minutes : ℕ) : ℕ :=
  if alignTarget start minutes ≤ start then
    alignTarget start minutes + minutes * usPerMin
  else alignTarget start minutes

/-- The minute-of-hour of a timestamp. -/
def minuteOfHour (t : ℕ) : ℕ := t / usPerMin % 60

theorem alignBase_le (start : ℕ) : alignBase start ≤ start :=
  Nat.div_mul_le_self start usPerMin

theorem lt_alignK (start minutes : ℕ) (hpos : 0 < minutes) :
    alignBase start / usPerMin % 60 < alignK start minutes := by
  set bm := alignBase start / usPerMin % 60 with hbm
  have hmod : bm % minutes < minutes := Nat.mod_lt _ hpos
  calc bm = minutes * (bm / minutes) + bm % minutes := (Nat.div_add_mod bm minutes).symm
    _ < minutes * (bm / minutes) + minutes := Nat.add_lt_add_left hmod _
    _ = (bm / minutes + 1) * minutes := by ring

theorem minutes_dvd_alignK (start minutes : ℕ) : minutes ∣ alignK start minutes :=
  dvd_mul_left minutes _

/-- C2 (helper): the guarded bump in `align_next_slot` never fires, because
the computed target is always strictly beyond `start`. -/
theorem alignTarget_gt (start minutes : ℕ) (hpos : 0 < minutes) :
    start < alignTarget start minutes := by
  have hu : usPerHour = usPerMin * 60 := by norm_num [usPerMin, usPerHour]
  set b := start / usPerMin with hbdef
  have hbase : alignBase start = b * usPerMin := rfl
  have hBdiv : alignBase start / usPerMin = b := by
    rw [hbase]; exact Nat.mul_div_cancel _ (by norm_num [usPerMin])
  have hHour : alignBase start / usPerHour = b / 60 := by
    rw [hbase, hu, Nat.mul_comm b usPerMin,
      Nat.mul_div_mul_left b 60 (by norm_num [usPerMin])]
  have hk := lt_alignK start minutes hpos
  rw [hBdiv] at hk
  have hb60 : b / 60 * 60 + b % 60 = b := Nat.div_add_mod' b 60
  have hstart : start < (b + 1) * usPerMin := by
    have h1 : usPerMin * b + start % usPerMin = start := Nat.div_add_mod start usPerMin
    have h2 : start % usPerMin < usPerMin := Nat.mod_lt _ (by norm_num [usPerMin])
    simp only [usPerMin] at h1 h2 ⊢
    omega
  have htar : alignTarget start minutes = (b / 60 * 60 + alignK start minutes) * usPerMin := by
    unfold alignTarget
    rw [hHour, hu]; ring
  rw [htar]
  have hge : b + 1 ≤ b / 60 * 60 + alignK start minutes := by omega
  calc start < (b + 1) * usPerMin := hstart
    _ ≤ (b / 60 * 60 + alignK start minutes) * usPerMin :=
        Nat.mul_le_mul_right _ hge

/-- **C2**  For every time `now` and every valid interval (a positive number of
minutes dividing the hour, so the grid "measured from the top of the hour" is
well defined), `align_next_slot now minutes` is strictly greater than `now`
and its minute-of-hour is a multiple of `minutes`. -/
theorem align_next_slot_spec (start minutes : ℕ) (hpos : 0 < minutes)
    (hdvd : minutes ∣ 60) :
    start < align_next_slot start minutes ∧
      minutes ∣ minuteOfHour (align_next_slot start minutes) := by
  have hgt := alignTarget_gt start minutes hpos
  have hif : align_next_slot start minutes = alignTarget start minutes := by
    unfold align_next_slot
    rw [if_neg (not_le.mpr hgt)]
  rw [hif]
  refine ⟨hgt, ?_⟩
  have hu : usPerHour = usPerMin * 60 := by norm_num [usPerMin, usPerHour]
  set b := start / usPerMin with hbdef
  have hbase : alignBase start = b * usPerMin := rfl
  have hHour : alignBase start / usPerHour = b / 60 := by
    rw [hbase, hu, Nat.mul_comm b usPerMin,
      Nat.mul_div_mul_left b 60 (by norm_num [usPerMin])]
  have htar : alignTarget start minutes = (b / 60 * 60 + alignK start minutes) * usPerMin := by
    unfold alignTarget
    rw [hHour, hu]; ring
  have hdivT : alignTarget start minutes / usPerMin = b / 60 * 60 + alignK start minutes := by
    rw [htar]; exact Nat.mul_div_cancel _ (by norm_num [usPerMin])
  unfold minuteOfHour
  rw [hdivT]
  have hmod : (b / 60 * 60 + alignK start minutes) % 60 = alignK start minutes % 60 := by
    omega
  rw [hmod]
  exact (Nat.dvd_mod_iff hdvd).mpr (minutes_dvd_alignK start minutes)

/-- Witness for C2 at a concrete input: 12:34:56.789 UTC on 1970-01-01,
interval 30 minutes. -/
theorem align_next_slot_spec_witness :
    0 < 30 ∧ (30 : ℕ) ∣ 60 ∧
      (45296789000 < align_next_slot 45296789000 30 ∧
        30 ∣ minuteOfHour (align_next_slot 45296789000 30)) :=
  ⟨by norm_num, by norm_num, align_next_slot_spec 45296789000 30 (by norm_num) (by norm_num)⟩

/-! ## BoundedFetcher: the retry worker of `gather_order_books`
(deribit_rest_30m.py, lines 221–249)

The worker's `try` block performs one fetch of the order book followed by
row construction, appending exactly one row on success; `except Exception`
catches any failure, increments `retry_count` and sleeps.  An attempt is
modelled as a function from the attempt index (= the value of
`retry_count` when the attempt starts) to `Except Unit α`: `.ok row` when
the try block appends `row`, `.error ()` when it raises.  The enclosing
semaphore, the pacing sleeps and the retry sleeps do not affect which rows
are appended, so they are not modelled; completion order of distinct
instruments is abstracted by concatenating each worker's contribution in
input order (the claims are order-independent). -/

/-- The `while retry_count < max_retries` loop of `worker` in
`gather_order_books`: returns the list of rows this instrument appends. -/
def worker {α : Type} (maxRetries : ℕ) (attempt : ℕ → Except Unit α)
    (retryCount : ℕ) : List α :=
  if _h : retryCount < maxRetries then
    match attempt retryCount with
    | Except.ok row => [row]
    | Except.error _ => worker maxRetries attempt (retryCount + 1)
  else []
termination_by maxRetries - retryCount
decreasing_by omega

/-- `gather_order_books`: one worker per `(underlying, instrument)` pair;
the output rows are the workers' appended rows. -/
def gather_order_books {ι α : Type} (maxRetries : ℕ) (instruments : List ι)
    (attempt : ι → ℕ → Except Unit α) : List α :=
  match instruments with
  | [] => []
  | i :: rest =>
      worker maxRetries (attempt i) 0 ++ gather_order_books maxRetries rest attempt

theorem worker_all_fail {α : Type} (maxRetries : ℕ) (attempt : ℕ → Except Unit α)
    (hfail : ∀ k, k < maxRetries → attempt k = Except.error ()) (c : ℕ) :
    worker maxRetries attempt c = [] := by
  have key : ∀ fuel c, maxRetries - c ≤ fuel → worker maxRetries attempt c = [] := by
    intro fuel
    induction fuel with
    | zero =>
        intro c hc
        rw [worker, dif_neg (by omega)]
    | succ n ih =>
        intro c hc
        rw [worker]
        by_cases h : c < maxRetries
        · rw [dif_pos h, hfail c h]
          exact ih (c + 1) (by omega)
        · rw [dif_neg h]
  exact key (maxRetries - c) c le_rfl

theorem worker_first_success {α : Type} (maxRetries : ℕ) (attempt : ℕ → Except Unit α)
    (t : ℕ) (ht : t < maxRetries) (row : α) (hsucc : attempt t = Except.ok row)
    (hfail : ∀ k, k < t → attempt k = Except.error ()) (c : ℕ) (hc : c ≤ t) :
    worker maxRetries attempt c = [row] := by
  have key : ∀ fuel c, t - c ≤ fuel → c ≤ t → worker maxRetries attempt c = [row] := by
    intro fuel
    induction fuel with
    | zero =>
        intro c hcf hct
        have hct' : c = t := by omega
        subst hct'
        rw [worker, dif_pos ht, hsucc]
    | succ n ih =>
        intro c hcf hct
        by_cases heq : c = t
        · subst heq
          rw [worker, dif_pos ht, hsucc]
        · have hlt : c < t := by omega
          rw [worker, dif_pos (by omega), hfail c hlt]
          exact ih (c + 1) (by omega) (by omega)
  exact key (t - c) c le_rfl hc

/-- **C1**  Per instrument of a fetch batch: the batch output is the
concatenation of each instrument's worker output (so no exception escapes a
worker into the batch: every worker returns a list); an instrument whose
attempts all fail except the last of the `maxRetries` allowed, which
succeeds with `row`, contributes exactly the one row `row`; an instrument
whose `maxRetries` attempts all fail contributes no row. -/
theorem gather_order_books_retry_spec {ι α : Type} (maxRetries : ℕ)
    (hpos : 0 < maxRetries) (instruments : List ι)
    (attempt : ι → ℕ → Except Unit α) :
    (gather_order_books maxRetries instruments attempt =
      (instruments.map (fun i => worker maxRetries (attempt i) 0)).flatten) ∧
    (∀ i, (∀ k, k + 1 < maxRetries → attempt i k = Except.error ()) →
      ∀ row, attempt i (maxRetries - 1) = Except.ok row →
        worker maxRetries (attempt i) 0 = [row]) ∧
    (∀ i, (∀ k, k < maxRetries → attempt i k = Except.error ()) →
      worker maxRetries (attempt i) 0 = []) := by
  refine ⟨?_, ?_, ?_⟩
  · induction instruments with
    | nil => rfl
    | cons i rest ih => simp [gather_order_books, ih]
  · intro i hfk row hok
    exact worker_first_success maxRetries (attempt i) (maxRetries - 1) (by omega) row hok
      (fun k hk => hfk k (by omega)) 0 (by omega)
  · intro i hfk
    exact worker_all_fail maxRetries (attempt i) hfk 0

/-- Witness for C1 with `maxRetries = 3`: an instrument failing twice then
succeeding yields its one row; an instrument failing three times yields
none. -/
theorem gather_order_books_retry_spec_witness :
    worker 3 (fun k => if k < 2 then Except.error () else Except.ok (7 : ℕ)) 0 = [7] ∧
    worker 3 (fun _ => (Except.error () : Except Unit ℕ)) 0 = [] := by
  constructor
  · refine (gather_order_books_retry_spec 3 (by norm_num) [0]
      (fun _ : ℕ => fun k => if k < 2 then Except.error () else Except.ok (7 : ℕ))).2.1
      0 ?_ 7 ?_
    · intro k hk
      have : k < 2 := by omega
      simp [this]
    · norm_num
  · exact (gather_order_books_retry_spec 3 (by norm_num) [0]
      (fun _ : ℕ => fun _ => (Except.error () : Except Unit ℕ))).2.2 0 (fun _ _ => rfl)

/-! ## InstrumentCode parser: `parse_instrument_name` (normalize.py, lines 34–101)

The anchored regexes `_DERIBIT_OPT` and `_DERIBIT_FUT` contain exactly
three resp. one literal dash and no dash inside any group, so a string
matches iff splitting on the dash yields exactly four resp. two parts,
each matching its group pattern.  Python's `$` also matches just before a
single trailing newline, which `reTarget` reproduces.  `\d` and `int` are
modelled for ASCII digits.  Character lists are used internally so that
every definition evaluates by kernel reduction. -/

/-- Splitting a character list on a separator character (all groups kept,
including empty ones), as the dash/dot structure of the regexes requires. -/
def splitOnChar (sep : Char) : List Char → List (List Char)
  | [] => [[]]
  | c :: cs =>
      match splitOnChar sep cs with
      | [] => [[]]
      | g :: gs => if c = sep then [] :: g :: gs else (c :: g) :: gs

/-- One character of `[A-Z]`. -/
def isUpperAZ (c : Char) : Bool := decide (c ≥ 'A') && decide (c ≤ 'Z')

/-- The numeral denoted by a string of ASCII digits. -/
def digitsToNat (cs : List Char) : ℕ :=
  cs.foldl (fun a c => a * 10 + (c.toNat - 48)) 0

/-- The part of the subject an `^...$`-anchored pattern must cover: the
whole string, or everything but one trailing newline. -/
def reTarget (cs : List Char) : List Char :=
  if cs.getLast? = some '\n' then cs.dropLast else cs

/-- Group `[A-Z0-9]+` (the `underlying`). -/
def isUnderTok (cs : List Char) : Bool :=
  !cs.isEmpty && cs.all (fun c => isUpperAZ c || c.isDigit)

/-- Group `\d{1,2}[A-Z]{3}\d{2}`: day, month code, two-digit year. -/
def parseDMY (cs : List Char) : Option (ℕ × List Char × ℕ) :=
  match cs with
  | [d1, m1, m2, m3, y1, y2] =>
      if d1.isDigit && isUpperAZ m1 && isUpperAZ m2 && isUpperAZ m3 &&
          y1.isDigit && y2.isDigit then
        some (digitsToNat [d1], [m1, m2, m3], digitsToNat [y1, y2])
      else none
  | [d1, d2, m1, m2, m3, y1, y2] =>
      if d1.isDigit && d2.isDigit && isUpperAZ m1 && isUpperAZ m2 && isUpperAZ m3 &&
          y1.isDigit && y2.isDigit then
        some (digitsToNat [d1, d2], [m1, m2, m3], digitsToNat [y1, y2])
      else none
  | _ => none

/-- Group `\d+(?:\.\d+)*` (the `strike` text): dot-separated nonempty digit
groups — note the pattern admits more than one dot. -/
def isStrikeTok (cs : List Char) : Bool :=
  (splitOnChar '.' cs).all (fun g => !g.isEmpty && g.all Char.isDigit)

/-- Python `float` on a strike token: defined only when the token has at
most one dot; two or more dots raise `ValueError`. -/
def floatOfStrikeTok (cs : List Char) : Option ℚ :=
  match splitOnChar '.' cs with
  | [a] => some (digitsToNat a : ℚ)
  | [a, b] => some ((digitsToNat a : ℚ) + (digitsToNat b : ℚ) / ((10 : ℚ) ^ b.length))
  | _ => none

/-- `_MON_MAP` from normalize.py. -/
def MON_MAP : List (String × ℕ) :=
  [("JAN", 1), ("FEB", 2), ("MAR", 3), ("APR", 4), ("MAY", 5), ("JUN", 6),
   ("JUL", 7), ("AUG", 8), ("SEP", 9), ("OCT", 10), ("NOV", 11), ("DEC", 12)]

/-- `_MON_MAP[mon]` as a lookup; `none` is Python's `KeyError`. -/
def monLookup (cs : List Char) : Option ℕ :=
  (MON_MAP.find? (fun p => p.1.data = cs)).map Prod.snd

/-- Zero-padded two-digit field of a Python `f"{n:02d}"`. -/
def pad2 (n : ℕ) : String := if n < 10 then "0" ++ toString n else toString n

/-- Zero-padded four-digit field of a Python `f"{year:04d}"`. -/
def pad4 (n : ℕ) : String :=
  if n < 10 then "000" ++ toString n
  else if n < 100 then "00" ++ toString n
  else if n < 1000 then "0" ++ toString n
  else toString n

/-- The maturity string `f"{year:04d}-{mon:02d}-{day:02d}"`. -/
def fmtMaturity (year mon day : ℕ) : String :=
  pad4 year ++ "-" ++ pad2 mon ++ "-" ++ pad2 day

/-- `ParsedInstrument` from normalize.py. -/
structure ParsedInstrument where
  kind : String
  underlying : String
  maturity : String
  option_type : Option String
  strike : Option ℚ
deriving DecidableEq, Repr

/-- The fallback value for a non-matching name. -/
def unknownInstrument : ParsedInstrument :=
  ⟨"unknown", "", "", none, none⟩

/-- The body of `parse_instrument_name` after the subject has been split on
the dash.  `Except.error` marks the places where the Python function
raises: `_MON_MAP[mon]` raises `KeyError` for a month code outside the
map, and `float(strike)` raises `ValueError` for a strike text with more
than one dot (both sit inside a matched branch, before the unknown
fallback can fire). -/
def parseCore (parts : List (List Char)) : Except String ParsedInstrument :=
  match parts with
  | [u, dmy, k, o] =>
      match parseDMY dmy with
      | some (day, mon, yy) =>
          if isUnderTok u && isStrikeTok k && (o = ['C'] || o = ['P']) then
            match monLookup mon with
            | none => Except.error ("KeyError: " ++ String.mk mon)
            | some m =>
                match floatOfStrikeTok k with
                | none => Except.error
                    ("ValueError: could not convert string to float: " ++ String.mk k)
                | some kq =>
                    Except.ok ⟨"option", String.mk u, fmtMaturity (2000 + yy) m day,
                      some (String.mk o), some kq⟩
          else Except.ok unknownInstrument
      | none => Except.ok unknownInstrument
  | [u, dmy] =>
      match parseDMY dmy with
      | some (day, mon, yy) =>
          if isUnderTok u then
            match monLookup mon with
            | none => Except.error ("KeyError: " ++ String.mk mon)
            | some m =>
                Except.ok ⟨"future", String.mk u, fmtMaturity (2000 + yy) m day, none, none⟩
          else Except.ok unknownInstrument
      | none => Except.ok unknownInstrument
  | _ => Except.ok unknownInstrument

/-- `parse_instrument_name` from normalize.py. -/
def parse_instrument_name (name : String) : Except String ParsedInstrument :=
  parseCore (splitOnChar '-' (reTarget name.data))

/-- The dash-split parts match neither grammar. -/
def neitherCore (parts : List (List Char)) : Bool :=
  match parts with
  | [u, dmy, k, o] =>
      !(isUnderTok u && (parseDMY dmy).isSome && isStrikeTok k && (o = ['C'] || o = ['P']))
  | [u, dmy] => !(isUnderTok u && (parseDMY dmy).isSome)
  | _ => true

/-- A string matches neither the option nor the future grammar. -/
def matchesNeitherGrammar (name : String) : Bool :=
  neitherCore (splitOnChar '-' (reTarget name.data))

theorem parseCore_unknown :
    ∀ parts, neitherCore parts = true → parseCore parts = Except.ok unknownInstrument
  | [], _ => rfl
  | [_], _ => rfl
  | [u, dmy], h => by
      rcases hdmy : parseDMY dmy with _ | ⟨⟨day, mon, yy⟩⟩
      · simp [parseCore, hdmy]
      · simp only [neitherCore, hdmy, Option.isSome_some, Bool.and_true,
          Bool.not_eq_eq_eq_not, Bool.not_true] at h
        simp [parseCore, hdmy, h]
  | [_, _, _], _ => rfl
  | [u, dmy, k, o], h => by
      rcases hdmy : parseDMY dmy with _ | ⟨⟨day, mon, yy⟩⟩
      · simp [parseCore, hdmy]
      · simp only [neitherCore, hdmy, Option.isSome_some, Bool.true_and,
          Bool.and_true] at h
        simp only [parseCore, hdmy]
        rw [if_neg]
        intro hc
        rcases Bool.and_eq_true_iff.mp hc with ⟨hc1, hc3⟩
        rcases Bool.and_eq_true_iff.mp hc1 with ⟨hu, hk⟩
        simp [hu, hk, hc3] at h
  | _ :: _ :: _ :: _ :: _ :: _, _ => rfl

/-- **C3 (code-bug evidence)**  `parse_instrument_name` behaves as claimed on
grammar-conforming inputs and on non-matching strings, but it is *not*
total: `"BTC-27XXX25"` matches the future grammar (`XXX` is three capital
letters), yet the month lookup `_MON_MAP["XXX"]` raises `KeyError`; and
`"BTC-27OCT25-1.2.3-C"` matches the option grammar (the strike group
allows repeated dots), yet `float("1.2.3")` raises `ValueError`.  Every
string matching neither grammar does yield `kind = unknown` with the
other fields empty, without raising. -/
theorem parse_instrument_name_cases :
    parse_instrument_name "BTC-27OCT25-65000-C" =
      Except.ok ⟨"option", "BTC", "2025-10-27", some "C", some 65000⟩ ∧
    parse_instrument_name "BTC-27OCT25" =
      Except.ok ⟨"future", "BTC", "2025-10-27", none, none⟩ ∧
    parse_instrument_name "garbage" = Except.ok unknownInstrument ∧
    parse_instrument_name "BTC-27XXX25" = Except.error ("KeyError: " ++ "XXX") ∧
    parse_instrument_name "BTC-27OCT25-1.2.3-C" =
      Except.error ("ValueError: could not convert string to float: " ++ "1.2.3") ∧
    (∀ name, matchesNeitherGrammar name = true →
      parse_instrument_name name = Except.ok unknownInstrument) := by
  exact ⟨by decide, by decide, by decide, by decide, by decide,
    fun name h => parseCore_unknown _ h⟩

/-! ## QCEngine row rules (cleaning.py, lines 15–18 and 161–182)

`flag_iv_outliers` and `enforce_bid_ask_rules` act cellwise/rowwise on
float64 columns; a missing cell is NaN, modelled as `none`, and every
pandas comparison involving NaN is false. -/

/-- `QCLimits` from cleaning.py with its built-in defaults
(`iv_min = 0.01`, `iv_max = 5.0`). -/
structure QCLimits where
  iv_min : ℚ := 1 / 100
  iv_max : ℚ := 5
deriving DecidableEq, Repr

/-- `Series.between(lo, hi, inclusive="both")` on one cell: false on a
missing value. -/
def pdBetween (lo hi : ℚ) (x : Option ℚ) : Bool :=
  match x with
  | some v => decide (lo ≤ v) && decide (v ≤ hi)
  | none => false

/-- One cell of `~df["iv"].between(limits.iv_min, limits.iv_max,
inclusive="both")` from `flag_iv_outliers`. -/
def flag_iv_outlier (limits : QCLimits) (iv : Option ℚ) : Bool :=
  !(pdBetween limits.iv_min limits.iv_max iv)

/-- `flag_iv_outliers` on the `iv` column. -/
def flag_iv_outliers (limits : QCLimits) (ivs : List (Option ℚ)) : List Bool :=
  ivs.map (flag_iv_outlier limits)

/-- **C4**  The outlier flag is the negation of the inclusive inclusion test
`iv_min ≤ iv ≤ iv_max`: it is `false` exactly when the cell holds a value
inside the closed interval, a null cell is flagged `true`, and with the
default limits (`0.01`, `5.0`) the cells `0.005`, `1.0`, null are flagged
`true`, `false`, `true`. -/
theorem flag_iv_outliers_spec (limits : QCLimits) (iv : Option ℚ) :
    (flag_iv_outlier limits iv = false ↔
      ∃ v, iv = some v ∧ limits.iv_min ≤ v ∧ v ≤ limits.iv_max) ∧
    flag_iv_outlier limits none = true ∧
    flag_iv_outliers {} [some (5 / 1000), some 1, none] = [true, false, true] := by
  refine ⟨?_, rfl, by norm_num [flag_iv_outliers, flag_iv_outlier, pdBetween]⟩
  cases iv with
  | none => simp [flag_iv_outlier, pdBetween]
  | some v =>
      simp [flag_iv_outlier, pdBetween]

/-- A row seen by `enforce_bid_ask_rules`: the `bid`/`ask` cells plus the
rest of the row, carried through untouched. -/
structure QuoteRow (α : Type) where
  bid : Option ℚ
  ask : Option ℚ
  rest : α
deriving DecidableEq, Repr

/-- `series >= scalar` on one cell (false on NaN). -/
def pdGeScalar (x : Option ℚ) (c : ℚ) : Bool :=
  match x with
  | some v => decide (c ≤ v)
  | none => false

/-- `series > scalar` on one cell (false on NaN). -/
def pdGtScalar (x : Option ℚ) (c : ℚ) : Bool :=
  match x with
  | some v => decide (c < v)
  | none => false

/-- `series >= series` on one pair of cells (false whenever NaN). -/
def pdGeCol (x y : Option ℚ) : Bool :=
  match x, y with
  | some a, some b => decide (b ≤ a)
  | _, _ => false

/-- `enforce_bid_ask_rules` from cleaning.py:
`out[(out["bid"] >= 0) & (out["ask"] > 0) & (out["ask"] >= out["bid"])]`. -/
def enforce_bid_ask_rules {α : Type} (rows : List (QuoteRow α)) : List (QuoteRow α) :=
  rows.filter (fun r => pdGeScalar r.bid 0 && pdGtScalar r.ask 0 && pdGeCol r.ask r.bid)

/-- **C5**  `enforce_bid_ask_rules` keeps exactly the input rows with
`bid ≥ 0`, `ask > 0` and `ask ≥ bid` (a null bid or ask fails the
comparisons): a row is in the output iff it is an input row whose bid and
ask are present and satisfy all three conditions, rows are kept unchanged
and in order (the output is a sublist of the input), and in particular a
row with `ask < bid` or `bid = -1` or `ask ≤ 0` is dropped. -/
theorem enforce_bid_ask_rules_spec {α : Type} [DecidableEq α]
    (rows : List (QuoteRow α)) (r : QuoteRow α) :
    (r ∈ enforce_bid_ask_rules rows ↔
      r ∈ rows ∧ ∃ b a, r.bid = some b ∧ r.ask = some a ∧ 0 ≤ b ∧ 0 < a ∧ b ≤ a) ∧
    (enforce_bid_ask_rules rows).Sublist rows := by
  constructor
  · rw [enforce_bid_ask_rules, List.mem_filter]
    constructor
    · rintro ⟨hmem, hcond⟩
      refine ⟨hmem, ?_⟩
      rcases Bool.and_eq_true_iff.mp hcond with ⟨h12, h3⟩
      rcases Bool.and_eq_true_iff.mp h12 with ⟨h1, h2⟩
      rcases hb : r.bid with _ | b
      · rw [hb] at h1; exact absurd h1 (by simp [pdGeScalar])
      · rcases ha : r.ask with _ | a
        · rw [ha] at h2; exact absurd h2 (by simp [pdGtScalar])
        · rw [hb] at h1; rw [ha] at h2; rw [ha, hb] at h3
          exact ⟨b, a, rfl, rfl, by simpa [pdGeScalar] using h1,
            by simpa [pdGtScalar] using h2, by simpa [pdGeCol] using h3⟩
    · rintro ⟨hmem, b, a, hb, ha, h1, h2, h3⟩
      exact ⟨hmem, by simp [hb, ha, pdGeScalar, pdGtScalar, pdGeCol, h1, h2, h3]⟩
  · exact List.filter_sublist rows

/-! ## QCEngine derived fields (cleaning.py, lines 153–173)

`compute_mid_and_spread` and `add_moneyness` run under
`np.errstate(divide="ignore", invalid="ignore")`: division issues never
raise, they produce IEEE-754 special values.  `PFloat` carries the exact
finite values together with NaN (which is also the missing-cell marker,
since `pd.isna` is true exactly on NaN) and the two infinities; `LogVal`
is the image of `np.log`, with `logPos q` standing for the real logarithm
of the positive rational `q`. -/

/-- A float64 cell: NaN (= missing), ±∞, or an exact finite value. -/
inductive PFloat where
  | nan
  | pinf
  | ninf
  | num (q : ℚ)
deriving DecidableEq, Repr

/-- IEEE-754 subtraction on cells (finite arithmetic kept exact). -/
def fsub : PFloat → PFloat → PFloat
  | PFloat.nan, _ => PFloat.nan
  | _, PFloat.nan => PFloat.nan
  | PFloat.pinf, PFloat.pinf => PFloat.nan
  | PFloat.pinf, _ => PFloat.pinf
  | PFloat.ninf, PFloat.ninf => PFloat.nan
  | PFloat.ninf, _ => PFloat.ninf
  | PFloat.num _, PFloat.pinf => PFloat.ninf
  | PFloat.num _, PFloat.ninf => PFloat.pinf
  | PFloat.num a, PFloat.num b => PFloat.num (a - b)

/-- IEEE-754 division on cells: `x/0` is ±∞ for `x ≠ 0` and NaN for
`0/0`; a finite value over ±∞ is zero (the zero signs are identified). -/
def fdiv : PFloat → PFloat → PFloat
  | PFloat.nan, _ => PFloat.nan
  | _, PFloat.nan => PFloat.nan
  | PFloat.pinf, PFloat.pinf => PFloat.nan
  | PFloat.pinf, PFloat.ninf => PFloat.nan
  | PFloat.ninf, PFloat.pinf => PFloat.nan
  | PFloat.ninf, PFloat.ninf => PFloat.nan
  | PFloat.pinf, PFloat.num b => if b < 0 then PFloat.ninf else PFloat.pinf
  | PFloat.ninf, PFloat.num b => if b < 0 then PFloat.pinf else PFloat.ninf
  | PFloat.num _, PFloat.pinf => PFloat.num 0
  | PFloat.num _, PFloat.ninf => PFloat.num 0
  | PFloat.num a, PFloat.num b =>
      if b = 0 then
        (if a = 0 then PFloat.nan else if 0 < a then PFloat.pinf else PFloat.ninf)
      else PFloat.num (a / b)

/-- `pd.isna` on a cell: true exactly on NaN (±∞ are *not* null). -/
def pfIsNA : PFloat → Bool
  | PFloat.nan => true
  | _ => false

/-- One cell of `(out["ask"] - out["bid"]) / out["mid"]` from
`compute_mid_and_spread`. -/
def spread_rel (bid ask mid : PFloat) : PFloat :=
  fdiv (fsub ask bid) mid

/-- `compute_mid_and_spread` on the `(bid, ask, mid)` columns: the
`spread_rel` column it appends. -/
def compute_mid_and_spread (rows : List (PFloat × PFloat × PFloat)) : List PFloat :=
  rows.map (fun r => spread_rel r.1 r.2.1 r.2.2)

/-- **C7 (counterexample)**  The claim says the relative spread is null
whenever `mid` is zero; but at `bid = 1`, `ask = 2`, `mid = 0` the code
computes `(2 - 1)/0 = +∞`, which is not null. -/
theorem compute_mid_and_spread_zero_mid_counterexample :
    compute_mid_and_spread [(PFloat.num 1, PFloat.num 2, PFloat.num 0)] = [PFloat.pinf] ∧
    pfIsNA PFloat.pinf = false := by
  constructor
  · show [spread_rel (PFloat.num 1) (PFloat.num 2) (PFloat.num 0)] = [PFloat.pinf]
    norm_num [spread_rel, fsub, fdiv]
  · rfl

/-- **C7 (amended)**  The relative spread is `(ask - bid) / mid`, computed
without raising: it is null whenever `mid` is null, and when `mid` is zero
it is null only if `ask = bid` (the `0/0` case) — otherwise it is `+∞` for
`ask > bid` and `-∞` for `ask < bid`, neither of which is null; for a
nonzero finite `mid` it is the exact quotient `(ask - bid)/mid`. -/
theorem compute_mid_and_spread_spec (bid ask mid : PFloat) :
    (mid = PFloat.nan → spread_rel bid ask mid = PFloat.nan) ∧
    (∀ b a : ℚ, bid = PFloat.num b → ask = PFloat.num a →
      (mid = PFloat.num 0 →
        spread_rel bid ask mid =
          (if a = b then PFloat.nan
           else if b < a then PFloat.pinf else PFloat.ninf)) ∧
      (∀ m : ℚ, m ≠ 0 → mid = PFloat.num m →
        spread_rel bid ask mid = PFloat.num ((a - b) / m))) ∧
    compute_mid_and_spread [(bid, ask, mid)] = [spread_rel bid ask mid] := by
  refine ⟨?_, ?_, rfl⟩
  · intro hm
    subst hm
    unfold spread_rel
    cases fsub ask bid <;> rfl
  · intro b a hb ha
    subst hb; subst ha
    constructor
    · intro hm
      subst hm
      unfold spread_rel fsub fdiv
      by_cases hab : a = b
      · simp [hab]
      · have hsub : a - b ≠ 0 := fun hc => hab (by linarith [sub_eq_zero.mp hc])
        by_cases hlt : b < a
        · have : 0 < a - b := by linarith
          simp [hab, hlt, hsub, this]
        · have : ¬(0 < a - b) := by intro hc; exact hlt (by linarith)
          simp [hab, hlt, hsub, this]
    · intro m hm hmid
      subst hmid
      unfold spread_rel fsub fdiv
      simp [hm]

/-- Witness for the amended C7 at `bid = 1`, `ask = 3`, `mid = 2`. -/
theorem compute_mid_and_spread_spec_witness :
    spread_rel (PFloat.num 1) (PFloat.num 3) (PFloat.num 2) = PFloat.num 1 := by
  have h := ((compute_mid_and_spread_spec (PFloat.num 1) (PFloat.num 3)
    (PFloat.num 2)).2.1 1 3 rfl rfl).2 2 (by norm_num) rfl
  rw [h]
  norm_num

/-- The image of `np.log` on a cell: NaN, ±∞, or the real logarithm of a
positive rational (kept symbolic as `logPos q`, since it is irrational for
`q ≠ 1`). -/
inductive LogVal where
  | nan
  | pinf
  | ninf
  | logPos (q : ℚ)
deriving DecidableEq, Repr

/-- `np.log` on a cell: `logPos q` abbreviates the real `log q` for
`q > 0`; `log 0 = -∞`, `log` of a negative value or of `-∞` is NaN, and
`log (+∞) = +∞`. -/
def npLog : PFloat → LogVal
  | PFloat.nan => LogVal.nan
  | PFloat.pinf => LogVal.pinf
  | PFloat.ninf => LogVal.nan
  | PFloat.num q =>
      if 0 < q then LogVal.logPos q
      else if q = 0 then LogVal.ninf else LogVal.nan

/-- One cell of `np.log(out["strike"] / out["underlying_price"])` from
`add_moneyness`. -/
def moneyness (strike underlying_price : PFloat) : LogVal :=
  npLog (fdiv strike underlying_price)

/-- `add_moneyness` on the `(strike, underlying_price)` columns: the
`moneyness` column it appends. -/
def add_moneyness (rows : List (PFloat × PFloat)) : List LogVal :=
  rows.map (fun r => moneyness r.1 r.2)

/-- `pd.isna` on a `np.log` result. -/
def lvIsNA : LogVal → Bool
  | LogVal.nan => true
  | _ => false

/-- **C8 (counterexample)**  The claim says moneyness is null whenever the
strike or the underlying price is non-positive; but at `strike = 0`,
`underlying_price = 100` the code computes `log(0/100) = log 0 = -∞`,
which is not null, and at `strike = -5`, `underlying_price = -2` it even
computes the finite value `log(5/2)`. -/
theorem add_moneyness_nonpositive_counterexample :
    add_moneyness [(PFloat.num 0, PFloat.num 100)] = [LogVal.ninf] ∧
    lvIsNA LogVal.ninf = false ∧
    moneyness (PFloat.num (-5)) (PFloat.num (-2)) = LogVal.logPos (5 / 2) := by
  refine ⟨?_, rfl, ?_⟩
  · show [moneyness (PFloat.num 0) (PFloat.num 100)] = [LogVal.ninf]
    norm_num [moneyness, fdiv, npLog]
  · norm_num [moneyness, fdiv, npLog]

/-- **C8 (amended)**  Moneyness is `log(strike / underlyingPrice)` with
IEEE-754 semantics, computed without raising: null whenever either operand
is null, null when the quotient is negative (one strictly negative
operand) and for `0/0`; but `strike = 0` with a nonzero price yields `-∞`
(not null), a zero price with positive strike yields `+∞` (not null), a
zero price with negative strike yields null, and two negative operands
yield the finite value `log(strike/underlyingPrice)`. -/
theorem add_moneyness_spec (strike up : PFloat) :
    (strike = PFloat.nan → moneyness strike up = LogVal.nan) ∧
    (up = PFloat.nan → moneyness strike up = LogVal.nan) ∧
    (∀ s u : ℚ, strike = PFloat.num s → up = PFloat.num u →
      (u ≠ 0 → 0 < s / u → moneyness strike up = LogVal.logPos (s / u)) ∧
      (u ≠ 0 → s / u < 0 → moneyness strike up = LogVal.nan) ∧
      (s = 0 → u ≠ 0 → moneyness strike up = LogVal.ninf) ∧
      (u = 0 → moneyness strike up =
        (if s = 0 then LogVal.nan
         else if 0 < s then LogVal.pinf else LogVal.nan))) ∧
    add_moneyness [(strike, up)] = [moneyness strike up] := by
  refine ⟨?_, ?_, ?_, rfl⟩
  · intro hs; subst hs
    cases up <;> rfl
  · intro hu; subst hu
    cases strike <;> rfl
  · intro s u hs hu
    subst hs; subst hu
    refine ⟨?_, ?_, ?_, ?_⟩
    · intro hu0 hpos
      unfold moneyness fdiv npLog
      simp [hu0, hpos]
    · intro hu0 hneg
      unfold moneyness fdiv npLog
      simp [hu0, hneg, not_lt_of_gt hneg, ne_of_lt hneg]
    · intro hs0 hu0
      subst hs0
      unfold moneyness fdiv npLog
      simp [hu0]
    · intro hu0
      subst hu0
      unfold moneyness fdiv npLog
      by_cases hs0 : s = 0
      · simp [hs0]
      · by_cases hsp : 0 < s
        · simp [hs0, hsp]
        · simp [hs0, hsp]

/-- Witness for the amended C8 at `strike = 65000`, price `50000`. -/
theorem add_moneyness_spec_witness :
    moneyness (PFloat.num 65000) (PFloat.num 50000) = LogVal.logPos (65000 / 50000) :=
  ((add_moneyness_spec (PFloat.num 65000) (PFloat.num 50000)).2.2.1 65000 50000
    rfl rfl).1 (by norm_num) (by norm_num)

/-! ## Aggregator: `build_smiles` (deribit_rest_30m.py, lines 276–294)

`df.groupby([...], dropna=False)` groups rows by the exact key tuple,
null key components included; `mean` skips NaN cells and yields NaN for a
group with no non-null cell; `agg.insert(0, "slot_time_utc",
df["slot_time_utc"].iloc[0])` stamps every output row with the first input
row's slot.  Pandas orders the output groups by sorted key; the claims are
order-independent, so groups are listed in first-occurrence order of their
key here (`List.dedup` keeps, for each key, the position of its last
occurrence — any enumeration of the distinct keys works). -/

/-- One canonical row as `build_smiles` consumes it. -/
structure CanRow where
  underlying : Option String
  expiry_utc : Option ℚ
  option_type : Option String
  strike : Option ℚ
  slot_time_utc : ℚ
  bid : Option ℚ
  ask : Option ℚ
  mid : Option ℚ
  iv : Option ℚ
  delta : Option ℚ
  gamma : Option ℚ
  vega : Option ℚ
  theta : Option ℚ
  rho : Option ℚ
  index_price : Option ℚ
  underlying_price : Option ℚ
deriving DecidableEq, Repr

/-- The grouping key `["underlying", "expiry_utc", "option_type", "strike"]`. -/
abbrev SmileKey : Type := Option String × Option ℚ × Option String × Option ℚ

/-- The grouping key of a canonical row. -/
def smileKey (r : CanRow) : SmileKey :=
  (r.underlying, r.expiry_utc, r.option_type, r.strike)

/-- One aggregated smile row (`S` is the mean `index_price`, `F` the mean
`underlying_price`, as in the `agg` call). -/
structure SmileRow where
  slot_time_utc : ℚ
  underlying : Option String
  expiry_utc : Option ℚ
  option_type : Option String
  strike : Option ℚ
  bid : Option ℚ
  ask : Option ℚ
  mid : Option ℚ
  iv : Option ℚ
  delta : Option ℚ
  gamma : Option ℚ
  vega : Option ℚ
  theta : Option ℚ
  rho : Option ℚ
  S : Option ℚ
  F : Option ℚ
deriving DecidableEq, Repr

/-- The key carried by an aggregated row. -/
def smileOutKey (s : SmileRow) : SmileKey :=
  (s.underlying, s.expiry_utc, s.option_type, s.strike)

/-- Pandas `mean` of a column: arithmetic mean of the non-null cells, NaN
(none) when every cell is null. -/
def meanOpt (vs : List (Option ℚ)) : Option ℚ :=
  let xs := vs.filterMap id
  if xs.isEmpty then none else some (xs.sum / xs.length)

/-- The rows of one group. -/
def smileGroup (rows : List CanRow) (k : SmileKey) : List CanRow :=
  rows.filter (fun r => smileKey r = k)

/-- The aggregated row of one group. -/
def smileAgg (slot : ℚ) (rows : List CanRow) (k : SmileKey) : SmileRow :=
  let g := smileGroup rows k
  { slot_time_utc := slot
    underlying := k.1
    expiry_utc := k.2.1
    option_type := k.2.2.1
    strike := k.2.2.2
    bid := meanOpt (g.map CanRow.bid)
    ask := meanOpt (g.map CanRow.ask)
    mid := meanOpt (g.map CanRow.mid)
    iv := meanOpt (g.map CanRow.iv)
    delta := meanOpt (g.map CanRow.delta)
    gamma := meanOpt (g.map CanRow.gamma)
    vega := meanOpt (g.map CanRow.vega)
    theta := meanOpt (g.map CanRow.theta)
    rho := meanOpt (g.map CanRow.rho)
    S := meanOpt (g.map CanRow.index_price)
    F := meanOpt (g.map CanRow.underlying_price) }

/-- `build_smiles`: empty in, empty out; otherwise one aggregated row per
distinct key, stamped with the first row's slot time. -/
def build_smiles : List CanRow → List SmileRow
  | [] => []
  | r0 :: rest =>
      (((r0 :: rest).map smileKey).dedup).map
        (smileAgg r0.slot_time_utc (r0 :: rest))

theorem smileOutKey_smileAgg (slot : ℚ) (rows : List CanRow) (k : SmileKey) :
    smileOutKey (smileAgg slot rows k) = k := rfl

/-- **C6**  `build_smiles` groups by `(underlying, expiry, optionType,
strike)`: an empty input yields an empty output; otherwise the output has
exactly one row per key occurring in the input (the out-keys are exactly
the in-keys, with no duplicates), every output row carries the first input
row's slot time and, for each numeric field, the mean over the non-null
values of its group; the mean itself is null — not zero — on a group with
no non-null value, and `mean [10, 12, null] = 11`. -/
theorem build_smiles_spec (r0 : CanRow) (rest : List CanRow) :
    build_smiles [] = [] ∧
    ((build_smiles (r0 :: rest)).map smileOutKey).Nodup ∧
    (∀ k : SmileKey, (∃ r ∈ r0 :: rest, smileKey r = k) ↔
      ∃ s ∈ build_smiles (r0 :: rest), smileOutKey s = k) ∧
    (∀ s ∈ build_smiles (r0 :: rest),
      s.slot_time_utc = r0.slot_time_utc ∧
      s.bid = meanOpt ((smileGroup (r0 :: rest) (smileOutKey s)).map CanRow.bid) ∧
      s.ask = meanOpt ((smileGroup (r0 :: rest) (smileOutKey s)).map CanRow.ask) ∧
      s.mid = meanOpt ((smileGroup (r0 :: rest) (smileOutKey s)).map CanRow.mid) ∧
      s.iv = meanOpt ((smileGroup (r0 :: rest) (smileOutKey s)).map CanRow.iv) ∧
      s.delta = meanOpt ((smileGroup (r0 :: rest) (smileOutKey s)).map CanRow.delta) ∧
      s.gamma = meanOpt ((smileGroup (r0 :: rest) (smileOutKey s)).map CanRow.gamma) ∧
      s.vega = meanOpt ((smileGroup (r0 :: rest) (smileOutKey s)).map CanRow.vega) ∧
      s.theta = meanOpt ((smileGroup (r0 :: rest) (smileOutKey s)).map CanRow.theta) ∧
      s.rho = meanOpt ((smileGroup (r0 :: rest) (smileOutKey s)).map CanRow.rho) ∧
      s.S = meanOpt ((smileGroup (r0 :: rest) (smileOutKey s)).map CanRow.index_price) ∧
      s.F = meanOpt ((smileGroup (r0 :: rest) (smileOutKey s)).map CanRow.underlying_price)) ∧
    meanOpt [some 10, some 12, none] = some 11 ∧
    meanOpt [none, none] = none ∧
    (∀ vs : List (Option ℚ), vs.filterMap id ≠ [] →
      meanOpt vs = some ((vs.filterMap id).sum / (vs.filterMap id).length)) := by
  have hmean : meanOpt [some 10, some 12, none] = some 11 := by
    have h : List.filterMap id [some (10 : ℚ), some 12, none] = [10, 12] := rfl
    simp only [meanOpt, h]
    norm_num
  refine ⟨rfl, ?_, ?_, ?_, hmean, rfl, ?_⟩
  · unfold build_smiles
    rw [List.map_map]
    have : smileOutKey ∘ smileAgg r0.slot_time_utc (r0 :: rest) = id := by
      funext k
      exact smileOutKey_smileAgg _ _ _
    rw [this, List.map_id]
    exact ((r0 :: rest).map smileKey).nodup_dedup
  · intro k
    constructor
    · rintro ⟨r, hr, hk⟩
      refine ⟨smileAgg r0.slot_time_utc (r0 :: rest) k, ?_, rfl⟩
      unfold build_smiles
      exact List.mem_map_of_mem _ (List.mem_dedup.mpr (hk ▸ List.mem_map_of_mem _ hr))
    · rintro ⟨s, hs, hk⟩
      unfold build_smiles at hs
      rcases List.mem_map.mp hs with ⟨k2, hk2, hs2⟩
      rcases List.mem_map.mp (List.mem_dedup.mp hk2) with ⟨r, hr, hrk⟩
      exact ⟨r, hr, by rw [hrk, ← hk, ← hs2, smileOutKey_smileAgg]⟩
  · intro s hs
    unfold build_smiles at hs
    rcases List.mem_map.mp hs with ⟨k, _, hs2⟩
    subst hs2
    rw [smileOutKey_smileAgg]
    exact ⟨rfl, rfl, rfl, rfl, rfl, rfl, rfl, rfl, rfl, rfl, rfl, rfl⟩
  · intro vs h
    simp only [meanOpt]
    rw [if_neg (by simpa [List.isEmpty_iff] using h)]

/-- Witness for C6: the mean formula applied to the `bid` column
`[10, 12, null]`. -/
theorem build_smiles_spec_witness :
    meanOpt [some 10, some 12, none] =
      some ((([some (10 : ℚ), some 12, none].filterMap id).sum) /
        (([some (10 : ℚ), some 12, none].filterMap id).length)) :=
  (build_smiles_spec ⟨none, none, none, none, 0, none, none, none, none, none,
    none, none, none, none, none, none⟩ []).2.2.2.2.2.2
    [some 10, some 12, none] (by decide)

/-! ## DataFrames for the Normalizer (normalize.py, lines 136–237) and
canonicalization (cleaning.py, lines 185–215)

A frame is a list of column names plus rows of cells in column position.
A cell is null (None/NaN), an exact number, or a string. -/

/-- A cell value. -/
inductive Val where
  | null
  | num (q : ℚ)
  | vstr (s : String)
deriving DecidableEq, Repr

/-- Index of the first occurrence of a name in a column list. -/
def idxOf? (k : String) : List String → Option ℕ
  | [] => none
  | c :: cs => if c = k then some 0 else (idxOf? k cs).map (· + 1)

/-- Elementwise run of a raising function down a list, stopping at the
first raise — Python's `Series.map` with an exception-throwing callback. -/
def mapExcept {α β : Type} (g : α → Except String β) : List α → Except String (List β)
  | [] => Except.ok []
  | x :: xs => (g x).bind (fun y => (mapExcept g xs).map (fun ys => y :: ys))

/-- A pandas DataFrame, column-positionally. -/
structure DataFrame where
  cols : List String
  rows : List (List Val)
deriving DecidableEq, Repr

/-- Every row has one cell per column. -/
def DataFrame.Wf (df : DataFrame) : Prop :=
  ∀ r ∈ df.rows, r.length = df.cols.length

/-- `k in df.columns`. -/
def DataFrame.hasCol (df : DataFrame) (k : String) : Bool :=
  (idxOf? k df.cols).isSome

/-- The cells of column `k`, `none` when the column is absent. -/
def DataFrame.column (df : DataFrame) (k : String) : Option (List Val) :=
  (idxOf? k df.cols).map (fun i => df.rows.map (fun r => r.getD i Val.null))

/-- `df[k] = vals`: overwrite an existing column in place, or append a new
one on the right, as pandas column assignment does. -/
def DataFrame.setCol (df : DataFrame) (k : String) (vals : List Val) : DataFrame :=
  match idxOf? k df.cols with
  | some i => ⟨df.cols, (df.rows.zip vals).map (fun p => p.1.set i p.2)⟩
  | none => ⟨df.cols ++ [k], (df.rows.zip vals).map (fun p => p.1 ++ [p.2])⟩

/-- `df[k] = df[k].map(f)` (identity when the column is absent). -/
def DataFrame.mapCol (df : DataFrame) (k : String) (f : Val → Val) : DataFrame :=
  match idxOf? k df.cols with
  | some i => ⟨df.cols, df.rows.map (fun r => r.set i (f (r.getD i Val.null)))⟩
  | none => df

/-- `df[k] = df[k].map(f)` for a raising `f`. -/
def DataFrame.mapColE (df : DataFrame) (k : String) (f : Val → Except String Val) :
    Except String DataFrame :=
  match idxOf? k df.cols with
  | some i =>
      (mapExcept (fun r => (f (r.getD i Val.null)).map (fun v => r.set i v)) df.rows).map
        (fun rs => DataFrame.mk df.cols rs)
  | none => Except.ok df

/-- `ALIASES` from normalize.py, in dict order. -/
def ALIASES : List (String × List String) :=
  [("slot_time_utc", ["slot_time_utc"]),
   ("timestamp", ["timestamp_utc"]),
   ("instrument_name", ["instrument_name", "symbol", "inst"]),
   ("bid", ["best_bid_price", "bid_price", "bid"]),
   ("ask", ["best_ask_price", "ask_price", "ask"]),
   ("mark_price", ["mark_price", "mark", "last_price"]),
   ("iv", ["mark_iv", "iv", "implied_volatility"]),
   ("delta", ["delta"]),
   ("gamma", ["gamma"]),
   ("vega", ["vega"]),
   ("theta", ["theta"]),
   ("F", ["underlying_price"]),
   ("S", ["index_price"]),
   ("volume", ["volume", "volume_24h"]),
   ("open_interest", ["open_interest", "oi"]),
   ("maturity", ["maturity", "expiry_utc", "expiration", "expiration_date",
     "expiration_timestamp"]),
   ("strike", ["strike", "k", "strike_price"]),
   ("option_type", ["option_type", "is_call", "call_put", "right"]),
   ("kind", ["kind", "instrument_type", "type"])]

/-- The keys of `NUMERIC_TARGETS` from normalize.py, in dict order (the
values are all `float`). -/
def NUMERIC_TARGETS : List String :=
  ["bid", "ask", "mark_price", "iv", "delta", "gamma", "vega", "theta",
   "underlying_price", "strike", "volume", "open_interest", "S", "F"]

/-- A nonempty all-digit group. -/
def digitGroup (cs : List Char) : Bool :=
  !cs.isEmpty && cs.all Char.isDigit

/-- An unsigned decimal numeral with at most one dot. -/
def parseDecimal (cs : List Char) : Option ℚ :=
  match splitOnChar '.' cs with
  | [a] => if digitGroup a then some (digitsToNat a : ℚ) else none
  | [a, b] =>
      if digitGroup a && digitGroup b then
        some ((digitsToNat a : ℚ) + (digitsToNat b : ℚ) / ((10 : ℚ) ^ b.length))
      else none
  | _ => none

/-- The numeric string parser behind `pd.to_numeric` (modelled for plain
signed decimals, the only shapes the pipeline meets). -/
def pyParseNum (s : String) : Option ℚ :=
  match s.data with
  | '-' :: rest => (parseDecimal rest).map Neg.neg
  | '+' :: rest => parseDecimal rest
  | cs => parseDecimal cs

/-- `pd.to_numeric(col, errors="coerce")` on one cell: numbers pass
through, parseable strings become numbers, anything else becomes NaN. -/
def pd_to_numeric_coerce : Val → Val
  | Val.null => Val.null
  | Val.num q => Val.num q
  | Val.vstr s =>
      match pyParseNum s with
      | some q => Val.num q
      | none => Val.null

/-- `out["iv"] / 100` on one cell (NaN stays NaN). -/
def div100 : Val → Val
  | Val.num q => Val.num (q / 100)
  | v => v

/-- Python `str(x)` on a cell, as used by `astype(str)` and `_norm_opt`.
A null prints as `"None"`/`"nan"` depending on dtype and a float as
`"1.0"`; none of these match either token set or an instrument grammar, so
one representative spelling per case is enough. -/
def pyStr : Val → String
  | Val.null => "None"
  | Val.vstr s => s
  | Val.num q => if q.den = 1 then toString q.num ++ ".0" else toString q

/-- `_norm_opt` from `coalesce_columns`: normalize `option_type` cells
into `{C, P, None}` by case-insensitive token matching. -/
def norm_opt (x : Val) : Val :=
  match x with
  | Val.null => Val.null
  | v =>
      let s := (pyStr v).toUpper.trim
      if s = "C" ∨ s = "CALL" ∨ s = "1" ∨ s = "TRUE" then Val.vstr "C"
      else if s = "P" ∨ s = "PUT" ∨ s = "0" ∨ s = "FALSE" then Val.vstr "P"
      else Val.null

/-- Python `int()` on an exact rational: truncation toward zero. -/
def ratTruncToInt (q : ℚ) : ℤ := if 0 ≤ q then ⌊q⌋ else ⌈q⌉

/-- Leap year. -/
def isLeap (y : ℕ) : Bool := (y % 4 = 0 && y % 100 ≠ 0) || y % 400 = 0

/-- Days in a month. -/
def daysInMonth (y m : ℕ) : ℕ :=
  if m = 2 then (if isLeap y then 29 else 28)
  else if m = 4 ∨ m = 6 ∨ m = 9 ∨ m = 11 then 30 else 31

/-- Days from 1970-01-01 to a civil date (valid for year ≥ 1). -/
def daysFromCivil (y m d : ℕ) : ℤ :=
  let y2 : ℤ := if m ≤ 2 then (y : ℤ) - 1 else (y : ℤ)
  let era : ℤ := y2 / 400
  let yoe : ℤ := y2 - era * 400
  let mp : ℤ := ((m : ℤ) + 9) % 12
  let doy : ℤ := (153 * mp + 2) / 5 + (d : ℤ) - 1
  let doe : ℤ := yoe * 365 + yoe / 4 - yoe / 100 + doy
  era * 146097 + doe - 719468

/-- `pd.to_datetime(s, utc=True)` followed by flooring to milliseconds,
modelled for plain ISO dates `YYYY-MM-DD` (the library accepts more
formats; the pipeline's claims never reach this branch). -/
def parseIsoDateMs (s : String) : Option ℤ :=
  match splitOnChar '-' s.data with
  | [y, m, d] =>
      if y.length = 4 && digitGroup y && m.length = 2 && digitGroup m &&
          d.length = 2 && digitGroup d then
        let yn := digitsToNat y
        let mn := digitsToNat m
        let dn := digitsToNat d
        if 1 ≤ mn ∧ mn ≤ 12 ∧ 1 ≤ dn ∧ dn ≤ daysInMonth yn mn ∧ 1 ≤ yn then
          some (daysFromCivil yn mn dn * 86400000)
        else none
      else none
  | _ => none

/-- `to_utc_ms` from normalize.py: None/NaN raises; a number is seconds
unless it exceeds `10^12`, in which case it is already milliseconds; a
string is parsed as a timestamp, raising when unparseable. -/
def to_utc_ms (x : Val) : Except String Val :=
  match x with
  | Val.null => Except.error "ValueError: timestamp is None/NaN"
  | Val.num q =>
      Except.ok (Val.num ((ratTruncToInt (if (10 : ℚ) ^ 12 < q then q else q * 1000) : ℤ) : ℚ))
  | Val.vstr s =>
      match parseIsoDateMs s with
      | some ms => Except.ok (Val.num (ms : ℚ))
      | none => Except.error ("ValueError: could not parse timestamp: " ++ s)

/-- One step of the alias loop of `coalesce_columns`: skip a target that
already exists, otherwise copy the first existing candidate column. -/
def aliasStep (out : DataFrame) (p : String × List String) : DataFrame :=
  if out.hasCol p.1 then out
  else
    match p.2.find? (fun c => out.hasCol c) with
    | some c => out.setCol p.1 ((out.column c).getD [])
    | none => out

/-- The alias loop of `coalesce_columns` over all of `ALIASES`. -/
def coalesceAliases (df : DataFrame) : DataFrame :=
  ALIASES.foldl aliasStep df

/-- One step of the numeric-cast loop: coerce the column to numbers and,
for `iv` only, divide it by 100. -/
def numericStep (o : DataFrame) (c : String) : DataFrame :=
  if o.hasCol c then
    let o2 := o.mapCol c pd_to_numeric_coerce
    if c = "iv" then o2.mapCol "iv" div100 else o2
  else o

/-- The numeric-cast loop of `coalesce_columns` over `NUMERIC_TARGETS`. -/
def coalesceNumeric (df : DataFrame) : DataFrame :=
  NUMERIC_TARGETS.foldl numericStep df

/-- The `timestamp` conversion of `coalesce_columns` (it can raise). -/
def coalesceTimestamp (out : DataFrame) : Except String DataFrame :=
  if out.hasCol "timestamp" then out.mapColE "timestamp" to_utc_ms
  else Except.ok out

/-- The `option_type` normalization of `coalesce_columns`. -/
def coalesceOptType (out : DataFrame) : DataFrame :=
  if out.hasCol "option_type" then out.mapCol "option_type" norm_opt else out

/-- `coalesce_columns` from normalize.py: alias coalescing, then the
timestamp conversion (which can raise), then `option_type` normalization,
then the numeric casts with the `iv` rescale — in the statement order of
the source. -/
def coalesce_columns (df : DataFrame) : Except String DataFrame :=
  (coalesceTimestamp (coalesceAliases df)).map
    (fun out2 => coalesceNumeric (coalesceOptType out2))

/-- `Series.fillna` of column `k` with per-row fill values; when the column
is absent this is `out.get(k, Series([None]*len)).fillna(fills)`, i.e. the
fill values themselves. -/
def DataFrame.fillColumn (df : DataFrame) (k : String) (fills : List Val) : DataFrame :=
  match idxOf? k df.cols with
  | some i =>
      ⟨df.cols, (df.rows.zip fills).map (fun p =>
        p.1.set i (if p.1.getD i Val.null = Val.null then p.2 else p.1.getD i Val.null))⟩
  | none => df.setCol k fills

/-- A parsed optional string as a cell. -/
def optStrVal : Option String → Val
  | some s => Val.vstr s
  | none => Val.null

/-- A parsed optional number as a cell. -/
def optNumVal : Option ℚ → Val
  | some q => Val.num q
  | none => Val.null

/-- `add_parsed_columns` from normalize.py: if the instrument column is
present, parse every identifier (`parse_instrument_name` can raise, see
C3) and fill the five derived columns where they are null, never
overwriting present values. -/
def add_parsed_columns (df : DataFrame) (instrument_col : String) :
    Except String DataFrame :=
  if df.hasCol instrument_col then
    (mapExcept (fun v => parse_instrument_name (pyStr v))
        ((df.column instrument_col).getD [])).map
      (fun parsed =>
        let out := df.fillColumn "kind" (parsed.map (fun p => Val.vstr p.kind))
        let out := out.fillColumn "maturity" (parsed.map (fun p => Val.vstr p.maturity))
        let out := out.fillColumn "option_type"
          (parsed.map (fun p => optStrVal p.option_type))
        let out := out.fillColumn "strike" (parsed.map (fun p => optNumVal p.strike))
        out.fillColumn "underlying" (parsed.map (fun p => Val.vstr p.underlying)))
  else Except.ok df

/-- A total order on cells, for `sort_values` (pandas needs comparable
cells and leaves the order of tied keys implementation-defined — its
default sort is an unstable quicksort — so any total order is a faithful
choice for key comparison). -/
def valLe : Val → Val → Bool
  | Val.null, _ => true
  | _, Val.null => false
  | Val.num p, Val.num q => decide (p ≤ q)
  | Val.num _, Val.vstr _ => true
  | Val.vstr _, Val.num _ => false
  | Val.vstr s, Val.vstr t => decide (s ≤ t)

/-- Lexicographic order on sort keys. -/
def keyLe : List Val → List Val → Bool
  | [], _ => true
  | _ :: _, [] => false
  | a :: as, b :: bs => if a = b then keyLe as bs else valLe a b

/-- The sort key of a row. -/
def rowKey (cols : List String) (keys : List String) (r : List Val) : List Val :=
  keys.map (fun k =>
    match idxOf? k cols with
    | some i => r.getD i Val.null
    | none => Val.null)

/-- Insertion into a sorted list. -/
def insertByLe {β : Type} (le : β → β → Bool) (x : β) : List β → List β
  | [] => [x]
  | y :: ys => if le x y then x :: y :: ys else y :: insertByLe le x ys

/-- Insertion sort (`sort_values`). -/
def sortByLe {β : Type} (le : β → β → Bool) : List β → List β
  | [] => []
  | x :: xs => insertByLe le x (sortByLe le xs)

/-- `drop_duplicates(keys, keep="last")`: keep a row iff no later row has
the same key. -/
def dedupLastBy {β κ : Type} [DecidableEq κ] (key : β → κ) : List β → List β
  | [] => []
  | x :: xs =>
      if xs.any (fun y => key y = key x) then dedupLastBy key xs
      else x :: dedupLastBy key xs

/-- `standardize` from normalize.py: coalesce, parse-and-fill, then sort by
`(instrument_name, slot_time_utc)` (those of the two that exist) and keep
the last row of each duplicate key; with no sort column the frame passes
through. -/
def standardize (df : DataFrame) : Except String DataFrame :=
  (coalesce_columns df).bind (fun out1 =>
    (add_parsed_columns out1 "instrument_name").map (fun out =>
      let sortCols := ["instrument_name", "slot_time_utc"].filter
        (fun c => out.hasCol c)
      if sortCols.isEmpty then out
      else
        let sorted := sortByLe
          (fun r1 r2 => keyLe (rowKey out.cols sortCols r1) (rowKey out.cols sortCols r2))
          out.rows
        ⟨out.cols, dedupLastBy (rowKey out.cols sortCols) sorted⟩))

/-- `ONLY_AND_RENAMED` from cleaning.py, in dict order. -/
def ONLY_AND_RENAMED : List (String × String) :=
  [("slot_time_utc", "timestamp"),
   ("underlying", "underlying"),
   ("instrument_name", "instrument_name"),
   ("expiry_utc", "expiry"),
   ("strike", "strike"),
   ("option_type", "option_type"),
   ("bid", "bid"),
   ("ask", "ask"),
   ("mid", "mid"),
   ("iv", "iv"),
   ("delta", "delta"),
   ("gamma", "gamma"),
   ("vega", "vega"),
   ("theta", "theta"),
   ("rho", "rho"),
   ("F", "F"),
   ("S", "S"),
   ("spread_rel", "spread"),
   ("moneyness", "moneyness"),
   ("iv_flag_outlier", "iv_flag_outlier")]

/-- `filter_rename_columns` from cleaning.py: resolve every canonical
source column (raising `ValueError` at the first absent one, as the loop
does) and project the frame onto the renamed columns in declared order. -/
def filter_rename_columns (df : DataFrame) : Except String DataFrame :=
  (mapExcept (fun kv : String × String =>
    match idxOf? kv.1 df.cols with
    | some i => (Except.ok (kv.2, i) : Except String (String × ℕ))
    | none => Except.error ("ValueError: Column " ++ kv.1 ++ " not found in dataframe"))
    ONLY_AND_RENAMED).map
    (fun idxs : List (String × ℕ) =>
      ⟨idxs.map Prod.fst,
       df.rows.map (fun r : List Val =>
         idxs.map (fun p : String × ℕ => r.getD p.2 Val.null))⟩)

/-! ### Supporting lemmas: positional cell access -/

theorem getD_set_ne {α : Type} (d v : α) :
    ∀ (l : List α) (i j : ℕ), i ≠ j → (l.set i v).getD j d = l.getD j d
  | [], _, _, _ => rfl
  | _ :: _, 0, 0, h => absurd rfl h
  | _ :: _, 0, _ + 1, _ => by simp [List.set]
  | _ :: _, _ + 1, 0, _ => by simp [List.set]
  | x :: xs, i + 1, j + 1, h => by
      simp only [List.set, List.getD_cons_succ]
      exact getD_set_ne d v xs i j (by omega)

theorem getD_set_self {α : Type} (d v : α) :
    ∀ (l : List α) (i : ℕ), i < l.length → (l.set i v).getD i d = v
  | [], i, h => absurd h (by simp)
  | _ :: _, 0, _ => rfl
  | x :: xs, i + 1, h => by
      simp only [List.set, List.getD_cons_succ]
      exact getD_set_self d v xs i (by simpa using h)

theorem getD_append_left {α : Type} (d : α) :
    ∀ (l l2 : List α) (i : ℕ), i < l.length → (l ++ l2).getD i d = l.getD i d
  | [], _, i, h => absurd h (by simp)
  | _ :: _, _, 0, _ => rfl
  | x :: xs, l2, i + 1, h => by
      simp only [List.cons_append, List.getD_cons_succ]
      exact getD_append_left d xs l2 i (by simpa using h)

theorem length_set_eq {α : Type} (l : List α) (i : ℕ) (v : α) :
    (l.set i v).length = l.length := by
  simp

/-! ### Supporting lemmas: `idxOf?` -/

theorem idxOf?_eq_none_iff (k : String) :
    ∀ l : List String, idxOf? k l = none ↔ k ∉ l
  | [] => by simp [idxOf?]
  | c :: cs => by
      by_cases h : c = k
      · simp [idxOf?, h]
      · simp only [idxOf?, if_neg h]
        rcases hcs : idxOf? k cs with _ | j
        · have hrec := (idxOf?_eq_none_iff k cs).mp hcs
          simp only [Option.map_none', List.mem_cons, true_iff]
          rintro (rfl | hm)
          · exact h rfl
          · exact hrec hm
        · have hrec : k ∈ cs := by
            by_contra hm
            rw [(idxOf?_eq_none_iff k cs).mpr hm] at hcs
            exact Option.noConfusion hcs
          simp [List.mem_cons, hrec]

theorem idxOf?_isSome_iff (k : String) (l : List String) :
    (idxOf? k l).isSome = true ↔ k ∈ l := by
  rcases h : idxOf? k l with _ | i
  · simpa using (idxOf?_eq_none_iff k l).mp h
  · simp only [Option.isSome_some, true_iff]
    by_contra hm
    rw [(idxOf?_eq_none_iff k l).mpr hm] at h
    exact Option.noConfusion h

theorem idxOf?_get? (k : String) :
    ∀ (l : List String) (i : ℕ), idxOf? k l = some i → l.get? i = some k
  | [], i, h => Option.noConfusion h
  | c :: cs, i, h => by
      by_cases hc : c = k
      · simp only [idxOf?, if_pos hc] at h
        cases h
        simpa using hc
      · simp only [idxOf?, if_neg hc] at h
        rcases hcs : idxOf? k cs with _ | j <;> rw [hcs] at h
        · exact Option.noConfusion h
        · simp only [Option.map_some'] at h
          cases h
          simpa using idxOf?_get? k cs j hcs

theorem idxOf?_lt_length (k : String) (l : List String) (i : ℕ)
    (h : idxOf? k l = some i) : i < l.length := by
  have := idxOf?_get? k l i h
  exact List.get?_eq_some.mp this |>.1

theorem idxOf?_inj (l : List String) (k1 k2 : String) (i : ℕ)
    (h1 : idxOf? k1 l = some i) (h2 : idxOf? k2 l = some i) : k1 = k2 := by
  have g1 := idxOf?_get? k1 l i h1
  have g2 := idxOf?_get? k2 l i h2
  rw [g1] at g2
  exact Option.some.inj g2

theorem idxOf?_append_left (k : String) :
    ∀ (l l2 : List String) (i : ℕ), idxOf? k l = some i → idxOf? k (l ++ l2) = some i
  | [], _, i, h => Option.noConfusion h
  | c :: cs, l2, i, h => by
      by_cases hc : c = k
      · simp only [idxOf?, if_pos hc] at h ⊢
        exact h
      · simp only [idxOf?, if_neg hc] at h ⊢
        rcases hcs : idxOf? k cs with _ | j <;> rw [hcs] at h
        · exact Option.noConfusion h
        · simp only [Option.map_some'] at h
          rw [show cs.append l2 = cs ++ l2 from rfl,
            idxOf?_append_left k cs l2 j hcs]
          simpa using h

/-! ### Supporting lemmas: `mapExcept` -/

theorem mapExcept_ok_forall₂ {α β : Type} (g : α → Except String β) :
    ∀ (l : List α) (l2 : List β), mapExcept g l = Except.ok l2 →
      List.Forall₂ (fun a b => g a = Except.ok b) l l2
  | [], l2, h => by
      cases h
      exact List.Forall₂.nil
  | x :: xs, l2, h => by
      rcases hx : g x with e | y
      · rw [mapExcept, hx] at h
        exact Except.noConfusion h
      · rw [mapExcept, hx] at h
        rcases hxs : mapExcept g xs with e | ys
        · rw [hxs] at h
          exact Except.noConfusion h
        · rw [hxs] at h
          cases h
          exact List.Forall₂.cons hx (mapExcept_ok_forall₂ g xs ys hxs)

theorem mapExcept_isOk_iff {α β : Type} (g : α → Except String β) :
    ∀ l : List α, (∃ l2, mapExcept g l = Except.ok l2) ↔
      ∀ a ∈ l, ∃ b, g a = Except.ok b
  | [] => by simp [mapExcept]
  | x :: xs => by
      rcases hx : g x with e | y
      · simp only [mapExcept, hx, Except.bind]
        constructor
        · rintro ⟨l2, h⟩
          exact Except.noConfusion h
        · intro h
          rcases h x (List.mem_cons_self x xs) with ⟨b, hb⟩
          rw [hx] at hb
          exact Except.noConfusion hb
      · simp only [mapExcept, hx, Except.bind]
        rcases hxs : mapExcept g xs with e | ys
        · simp only [Except.map]
          constructor
          · rintro ⟨l2, h⟩
            exact Except.noConfusion h
          · intro h
            have := (mapExcept_isOk_iff g xs).mpr (fun a ha => h a (List.mem_cons_of_mem x ha))
            rw [hxs] at this
            rcases this with ⟨l2, hl2⟩
            exact Except.noConfusion hl2
        · simp only [Except.map]
          constructor
          · intro _ a ha
            rcases List.mem_cons.mp ha with rfl | ha
            · exact ⟨y, hx⟩
            · exact (mapExcept_isOk_iff g xs).mp ⟨ys, hxs⟩ a ha
          · intro _
            exact ⟨y :: ys, rfl⟩

theorem forall₂_map_eq {α β γ : Type} (R : α → β → Prop) (f : α → γ) (g : β → γ) :
    ∀ (l : List α) (l2 : List β), List.Forall₂ R l l2 →
      (∀ a b, R a b → f a = g b) → l.map f = l2.map g
  | [], [], _, _ => rfl
  | _ :: _, _ :: _, List.Forall₂.cons hR hrest, h => by
      simp only [List.map_cons]
      rw [h _ _ hR, forall₂_map_eq R f g _ _ hrest h]

theorem forall₂_mem_right {α β : Type} (R : α → β → Prop) :
    ∀ (l : List α) (l2 : List β), List.Forall₂ R l l2 →
      ∀ b ∈ l2, ∃ a ∈ l, R a b
  | [], [], _, b, hb => absurd hb (by simp)
  | x :: xs, y :: ys, List.Forall₂.cons hR hrest, b, hb => by
      rcases List.mem_cons.mp hb with rfl | hb
      · exact ⟨x, List.mem_cons_self x xs, hR⟩
      · rcases forall₂_mem_right R xs ys hrest b hb with ⟨a, ha, hab⟩
        exact ⟨a, List.mem_cons_of_mem x ha, hab⟩

/-! ### Supporting lemmas: frame operations -/

theorem hasCol_iff_mem (df : DataFrame) (k : String) :
    df.hasCol k = true ↔ k ∈ df.cols := idxOf?_isSome_iff k df.cols

theorem hasCol_false_idx (df : DataFrame) (k : String) (h : df.hasCol k = false) :
    idxOf? k df.cols = none := by
  rcases hi : idxOf? k df.cols with _ | i
  · rfl
  · unfold DataFrame.hasCol at h
    rw [hi] at h
    simp at h

theorem hasCol_true_idx (df : DataFrame) (k : String) (h : df.hasCol k = true) :
    ∃ i, idxOf? k df.cols = some i := by
  rcases hi : idxOf? k df.cols with _ | i
  · unfold DataFrame.hasCol at h
    rw [hi] at h
    simp at h
  · exact ⟨i, rfl⟩

theorem column_of_hasCol (df : DataFrame) (k : String) (h : df.hasCol k = true) :
    ∃ col, df.column k = some col ∧ col.length = df.rows.length := by
  rcases hasCol_true_idx df k h with ⟨i, hi⟩
  refine ⟨df.rows.map (fun r => r.getD i Val.null), ?_, by simp⟩
  simp [DataFrame.column, hi]

theorem map_getD_zip_append (i : ℕ) :
    ∀ (rows : List (List Val)) (vals : List Val), vals.length = rows.length →
      (∀ r ∈ rows, i < r.length) →
      ((rows.zip vals).map (fun p => p.1 ++ [p.2])).map (fun r => r.getD i Val.null) =
        rows.map (fun r => r.getD i Val.null)
  | [], [], _, _ => rfl
  | [], _ :: _, h, _ => by simp at h
  | _ :: _, [], h, _ => by simp at h
  | r :: rs, v :: vs, h, hlen => by
      simp only [List.zip_cons_cons, List.map_cons]
      rw [getD_append_left Val.null r [v] i (hlen r (by simp)),
        map_getD_zip_append i rs vs (by simpa using h)
          (fun r2 h2 => hlen r2 (by simp [h2]))]

theorem setCol_new_cols (df : DataFrame) (k : String) (vals : List Val)
    (h : df.hasCol k = false) : (df.setCol k vals).cols = df.cols ++ [k] := by
  unfold DataFrame.setCol
  rw [hasCol_false_idx df k h]

theorem setCol_new_wf (df : DataFrame) (k : String) (vals : List Val)
    (h : df.hasCol k = false) (hwf : df.Wf)
    (_hlen : vals.length = df.rows.length) : (df.setCol k vals).Wf := by
  unfold DataFrame.setCol
  rw [hasCol_false_idx df k h]
  intro r hr
  rcases List.mem_map.mp hr with ⟨p, hp, rfl⟩
  have hp1 : p.1 ∈ df.rows := (List.of_mem_zip hp).1
  simp [hwf p.1 hp1]

theorem setCol_new_column_preserved (df : DataFrame) (k : String) (vals : List Val)
    (k2 : String) (h : df.hasCol k = false) (hwf : df.Wf)
    (hlen : vals.length = df.rows.length) (h2 : df.hasCol k2 = true) :
    (df.setCol k vals).column k2 = df.column k2 := by
  unfold DataFrame.setCol
  rw [hasCol_false_idx df k h]
  rcases hasCol_true_idx df k2 h2 with ⟨i, hi⟩
  unfold DataFrame.column
  simp only
  rw [idxOf?_append_left k2 df.cols [k] i hi, hi]
  simp only [Option.map_some']
  congr 1
  exact map_getD_zip_append i df.rows vals hlen
    (fun r hr => by rw [hwf r hr]; exact idxOf?_lt_length k2 df.cols i hi)

theorem setCol_new_hasCol_mono (df : DataFrame) (k : String) (vals : List Val)
    (k2 : String) (h : df.hasCol k = false) (h2 : df.hasCol k2 = true) :
    (df.setCol k vals).hasCol k2 = true := by
  unfold DataFrame.setCol
  rw [hasCol_false_idx df k h]
  rcases hasCol_true_idx df k2 h2 with ⟨i, hi⟩
  unfold DataFrame.hasCol
  simp only
  rw [idxOf?_append_left k2 df.cols [k] i hi]
  rfl

theorem mapCol_cols (df : DataFrame) (k : String) (f : Val → Val) :
    (df.mapCol k f).cols = df.cols := by
  unfold DataFrame.mapCol
  rcases hi : idxOf? k df.cols with _ | i <;> simp [hi]

theorem mapCol_wf (df : DataFrame) (k : String) (f : Val → Val) (hwf : df.Wf) :
    (df.mapCol k f).Wf := by
  unfold DataFrame.mapCol
  rcases hi : idxOf? k df.cols with _ | i <;> simp only [hi]
  · exact hwf
  · intro r hr
    rcases List.mem_map.mp hr with ⟨r0, hr0, rfl⟩
    simp [hwf r0 hr0]

theorem mapCol_column_ne (df : DataFrame) (k : String) (f : Val → Val)
    (k2 : String) (hne : k2 ≠ k) :
    (df.mapCol k f).column k2 = df.column k2 := by
  unfold DataFrame.mapCol
  rcases hi : idxOf? k df.cols with _ | i
  · simp [hi]
  · simp only [hi]
    unfold DataFrame.column
    simp only
    rcases hj : idxOf? k2 df.cols with _ | j
    · simp [hj]
    · simp only [hj, Option.map_some']
      congr 1
      rw [List.map_map]
      apply List.map_congr_left
      intro r _
      refine getD_set_ne Val.null _ r i j (fun hij => hne ?_)
      exact idxOf?_inj df.cols k2 k j (hj) (hij ▸ hi)

theorem mapCol_column_self (df : DataFrame) (k : String) (f : Val → Val)
    (hwf : df.Wf) :
    (df.mapCol k f).column k = (df.column k).map (fun col => col.map f) := by
  unfold DataFrame.mapCol
  rcases hi : idxOf? k df.cols with _ | i
  · simp [DataFrame.column, hi]
  · simp only [hi]
    unfold DataFrame.column
    simp only [hi, Option.map_some']
    congr 1
    rw [List.map_map, List.map_map]
    apply List.map_congr_left
    intro r hr
    exact getD_set_self Val.null _ r i
      (by rw [hwf r hr]; exact idxOf?_lt_length k df.cols i hi)

theorem mapCol_hasCol (df : DataFrame) (k : String) (f : Val → Val) (k2 : String) :
    (df.mapCol k f).hasCol k2 = df.hasCol k2 := by
  unfold DataFrame.hasCol
  rw [mapCol_cols]

theorem mapColE_ok (df : DataFrame) (k : String) (f : Val → Except String Val)
    (out : DataFrame) (h : df.mapColE k f = Except.ok out) :
    out.cols = df.cols ∧ (df.Wf → out.Wf) ∧
      (∀ k2, k2 ≠ k → out.column k2 = df.column k2) := by
  unfold DataFrame.mapColE at h
  rcases hi : idxOf? k df.cols with _ | i <;> simp only [hi] at h
  · cases h
    exact ⟨rfl, fun hw => hw, fun _ _ => rfl⟩
  · rcases hm : mapExcept (fun r => (f (r.getD i Val.null)).map (fun v => r.set i v))
        df.rows with e | rs <;> rw [hm] at h
    · exact Except.noConfusion h
    · simp only [Except.map] at h
      cases h
      have hf := mapExcept_ok_forall₂ _ df.rows rs hm
      refine ⟨rfl, ?_, ?_⟩
      · intro hwf r hr
        rcases forall₂_mem_right _ df.rows rs hf r hr with ⟨r0, hr0, hrel⟩
        rcases hv : f (r0.getD i Val.null) with e | v <;> rw [hv] at hrel
        · exact Except.noConfusion hrel
        · simp only [Except.map] at hrel
          cases hrel
          simp [hwf r0 hr0]
      · intro k2 hne
        unfold DataFrame.column
        simp only
        rcases hj : idxOf? k2 df.cols with _ | j
        · simp [hj]
        · simp only [hj, Option.map_some']
          congr 1
          refine (forall₂_map_eq _ _ _ df.rows rs hf ?_).symm
          intro a b hab
          rcases hv : f (a.getD i Val.null) with e | v <;> rw [hv] at hab
          · exact Except.noConfusion hab
          · simp only [Except.map] at hab
            cases hab
            refine (getD_set_ne Val.null _ a i j (fun hij => hne ?_)).symm
            exact idxOf?_inj df.cols k2 k j (hj) (hij ▸ hi)

/-! ### Stage lemmas for `coalesce_columns` and `standardize` -/

theorem foldl_congr_id {σ β : Type} (step : σ → β → σ) :
    ∀ (l : List β) (s : σ), (∀ p ∈ l, step s p = s) → List.foldl step s l = s
  | [], _, _ => rfl
  | p :: rest, s, h => by
      simp only [List.foldl_cons]
      rw [h p (List.mem_cons_self p rest)]
      exact foldl_congr_id step rest s (fun p2 h2 => h p2 (List.mem_cons_of_mem p h2))

theorem hasCol_congr (df df2 : DataFrame) (h : df2.cols = df.cols) (k : String) :
    df2.hasCol k = df.hasCol k := by
  unfold DataFrame.hasCol
  rw [h]

theorem aliasStep_wf (df : DataFrame) (p : String × List String) (hwf : df.Wf) :
    (aliasStep df p).Wf := by
  unfold aliasStep
  by_cases h : df.hasCol p.1 = true
  · simp only [h, if_true]
    exact hwf
  · have h' : df.hasCol p.1 = false := by revert h; cases df.hasCol p.1 <;> simp
    simp only [h', Bool.false_eq_true, if_false]
    rcases hf : p.2.find? (fun c => df.hasCol c) with _ | c <;> simp only [hf]
    · exact hwf
    · have hc : df.hasCol c = true := List.find?_some hf
      rcases column_of_hasCol df c hc with ⟨col, hcol, hlen⟩
      rw [hcol]
      exact setCol_new_wf df p.1 col h' hwf (by simpa using hlen)

theorem coalesceAliases_wf (df : DataFrame) (hwf : df.Wf) : (coalesceAliases df).Wf := by
  unfold coalesceAliases
  have key : ∀ (l : List (String × List String)) (d : DataFrame), d.Wf →
      (List.foldl aliasStep d l).Wf := by
    intro l
    induction l with
    | nil => exact fun d h => h
    | cons p rest ih =>
        intro d h
        simp only [List.foldl_cons]
        exact ih _ (aliasStep_wf d p h)
  exact key ALIASES df hwf

theorem numericStep_cols (o : DataFrame) (c : String) :
    (numericStep o c).cols = o.cols := by
  unfold numericStep
  by_cases h : o.hasCol c = true
  · simp only [h, if_true]
    by_cases hiv : c = "iv" <;> simp [hiv, mapCol_cols]
  · have h' : o.hasCol c = false := by revert h; cases o.hasCol c <;> simp
    simp [h']

theorem numericStep_wf (o : DataFrame) (c : String) (hwf : o.Wf) :
    (numericStep o c).Wf := by
  unfold numericStep
  by_cases h : o.hasCol c = true
  · simp only [h, if_true]
    by_cases hiv : c = "iv" <;>
      simp [hiv, mapCol_wf, mapCol_wf _ _ _ (mapCol_wf o _ _ hwf), hwf]
  · have h' : o.hasCol c = false := by revert h; cases o.hasCol c <;> simp
    simp [h', hwf]

theorem numericStep_column_ne_iv (o : DataFrame) (c : String) (hc : c ≠ "iv") :
    (numericStep o c).column "iv" = o.column "iv" := by
  unfold numericStep
  by_cases h : o.hasCol c = true
  · simp only [h, if_true, if_neg hc]
    exact mapCol_column_ne o c pd_to_numeric_coerce "iv" (Ne.symm hc)
  · have h' : o.hasCol c = false := by revert h; cases o.hasCol c <;> simp
    simp [h']

theorem numericStep_iv (o : DataFrame) (hwf : o.Wf) (hiv : o.hasCol "iv" = true) :
    (numericStep o "iv").column "iv" =
      (o.column "iv").map (fun col => col.map (fun v => div100 (pd_to_numeric_coerce v))) := by
  unfold numericStep
  simp only [hiv, if_true, if_pos rfl]
  rw [mapCol_column_self _ "iv" div100 (mapCol_wf o "iv" pd_to_numeric_coerce hwf),
    mapCol_column_self o "iv" pd_to_numeric_coerce hwf]
  rcases o.column "iv" with _ | col <;> simp [List.map_map]

theorem foldl_numeric_preserve :
    ∀ l : List String, (∀ c ∈ l, c ≠ "iv") → ∀ o : DataFrame,
      (List.foldl numericStep o l).column "iv" = o.column "iv" ∧
      (List.foldl numericStep o l).cols = o.cols ∧
      (o.Wf → (List.foldl numericStep o l).Wf)
  | [], _, o => ⟨rfl, rfl, fun h => h⟩
  | c :: rest, hl, o => by
      have h1 := numericStep_column_ne_iv o c (hl c (List.mem_cons_self c rest))
      have h2 := numericStep_cols o c
      have ih := foldl_numeric_preserve rest
        (fun d hd => hl d (List.mem_cons_of_mem c hd)) (numericStep o c)
      refine ⟨?_, ?_, ?_⟩ <;> simp only [List.foldl_cons]
      · rw [ih.1, h1]
      · rw [ih.2.1, h2]
      · intro hw
        exact ih.2.2 (numericStep_wf o c hw)

theorem numeric_targets_split :
    NUMERIC_TARGETS = ["bid", "ask", "mark_price"] ++ "iv" ::
      ["delta", "gamma", "vega", "theta", "underlying_price", "strike",
       "volume", "open_interest", "S", "F"] := rfl

theorem coalesceNumeric_iv (o : DataFrame) (hwf : o.Wf) (hiv : o.hasCol "iv" = true) :
    (coalesceNumeric o).column "iv" =
      (o.column "iv").map (fun col => col.map (fun v => div100 (pd_to_numeric_coerce v))) := by
  unfold coalesceNumeric
  rw [numeric_targets_split, List.foldl_append]
  have hpre := foldl_numeric_preserve ["bid", "ask", "mark_price"]
    (by intro c hc; fin_cases hc <;> decide) o
  have hwf1 := hpre.2.2 hwf
  have hiv1 : (List.foldl numericStep o ["bid", "ask", "mark_price"]).hasCol "iv" = true := by
    rw [hasCol_congr o _ hpre.2.1 "iv"]
    exact hiv
  rw [List.foldl_cons]
  have hpost := foldl_numeric_preserve
    ["delta", "gamma", "vega", "theta", "underlying_price", "strike",
     "volume", "open_interest", "S", "F"]
    (by intro c hc; fin_cases hc <;> decide)
    (numericStep (List.foldl numericStep o ["bid", "ask", "mark_price"]) "iv")
  rw [hpost.1, numericStep_iv _ hwf1 hiv1, hpre.1]

theorem coalesceTimestamp_ok (out out2 : DataFrame)
    (h : coalesceTimestamp out = Except.ok out2) :
    out2.cols = out.cols ∧ (out.Wf → out2.Wf) ∧
      out2.column "iv" = out.column "iv" := by
  unfold coalesceTimestamp at h
  by_cases hc : out.hasCol "timestamp" = true
  · rw [if_pos hc] at h
    obtain ⟨h1, h2, h3⟩ := mapColE_ok out "timestamp" to_utc_ms out2 h
    exact ⟨h1, h2, h3 "iv" (by decide)⟩
  · have hc' : out.hasCol "timestamp" = false := by
      revert hc; cases out.hasCol "timestamp" <;> simp
    rw [hc'] at h
    simp only [Bool.false_eq_true, if_false] at h
    cases h
    refine ⟨?_, fun hw => hw, ?_⟩ <;> trivial

theorem coalesceOptType_props (out : DataFrame) :
    (coalesceOptType out).cols = out.cols ∧
    (out.Wf → (coalesceOptType out).Wf) ∧
    (coalesceOptType out).column "iv" = out.column "iv" := by
  unfold coalesceOptType
  by_cases hc : out.hasCol "option_type" = true
  · simp only [hc, if_true]
    exact ⟨mapCol_cols out "option_type" norm_opt,
      fun hw => mapCol_wf out "option_type" norm_opt hw,
      mapCol_column_ne out "option_type" norm_opt "iv" (by decide)⟩
  · have hc' : out.hasCol "option_type" = false := by
      revert hc; cases out.hasCol "option_type" <;> simp
    simp only [hc', Bool.false_eq_true, if_false]
    refine ⟨?_, fun hw => hw, ?_⟩ <;> trivial

/-- The alias loop leaves the one-column frame `iv = [q]` unchanged. -/
theorem coalesceAliases_iv_frame (q : ℚ) :
    coalesceAliases ⟨["iv"], [[Val.num q]]⟩ = ⟨["iv"], [[Val.num q]]⟩ := by
  unfold coalesceAliases
  apply foldl_congr_id
  intro p hp
  fin_cases hp <;> simp [aliasStep, DataFrame.hasCol, idxOf?]

/-- `coalesce_columns` on the one-column frame `iv = [q]` divides by 100. -/
theorem coalesce_columns_iv_frame (q : ℚ) :
    coalesce_columns ⟨["iv"], [[Val.num q]]⟩ =
      Except.ok ⟨["iv"], [[Val.num (q / 100)]]⟩ := by
  have hts : coalesceTimestamp ⟨["iv"], [[Val.num q]]⟩ =
      Except.ok ⟨["iv"], [[Val.num q]]⟩ := by
    simp [coalesceTimestamp, DataFrame.hasCol, idxOf?]
  have hopt : coalesceOptType ⟨["iv"], [[Val.num q]]⟩ = ⟨["iv"], [[Val.num q]]⟩ := by
    simp [coalesceOptType, DataFrame.hasCol, idxOf?]
  have hivstep : numericStep ⟨["iv"], [[Val.num q]]⟩ "iv" =
      ⟨["iv"], [[Val.num (q / 100)]]⟩ := by
    simp [numericStep, DataFrame.hasCol, idxOf?, DataFrame.mapCol,
      pd_to_numeric_coerce, div100]
  have hnum : coalesceNumeric ⟨["iv"], [[Val.num q]]⟩ = ⟨["iv"], [[Val.num (q / 100)]]⟩ := by
    unfold coalesceNumeric
    rw [numeric_targets_split, List.foldl_append]
    rw [foldl_congr_id numericStep ["bid", "ask", "mark_price"] ⟨["iv"], [[Val.num q]]⟩
      (by intro p hp; fin_cases hp <;> simp [numericStep, DataFrame.hasCol, idxOf?])]
    rw [List.foldl_cons, hivstep]
    exact foldl_congr_id numericStep _ _
      (by intro p hp; fin_cases hp <;> simp [numericStep, DataFrame.hasCol, idxOf?])
  unfold coalesce_columns
  rw [coalesceAliases_iv_frame q, hts]
  simp only [Except.map]
  rw [hopt, hnum]

/-- `standardize` on the one-column frame `iv = [q]`: one pass divides by
100. -/
theorem standardize_iv_once (q : ℚ) :
    standardize ⟨["iv"], [[Val.num q]]⟩ = Except.ok ⟨["iv"], [[Val.num (q / 100)]]⟩ := by
  have hparse : add_parsed_columns ⟨["iv"], [[Val.num (q / 100)]]⟩ "instrument_name" =
      Except.ok ⟨["iv"], [[Val.num (q / 100)]]⟩ := by
    simp [add_parsed_columns, DataFrame.hasCol, idxOf?]
  unfold standardize
  rw [coalesce_columns_iv_frame q]
  simp only [Except.bind]
  rw [hparse]
  simp only [Except.map]
  simp [DataFrame.hasCol, idxOf?, List.filter]

/-- Two passes of `standardize` divide `iv` by 10000. -/
theorem standardize_iv_twice (q : ℚ) :
    (standardize ⟨["iv"], [[Val.num q]]⟩).bind standardize =
      Except.ok ⟨["iv"], [[Val.num (q / 10000)]]⟩ := by
  rw [standardize_iv_once q]
  simp only [Except.bind]
  rw [standardize_iv_once (q / 100)]
  have : q / 100 / 100 = q / 10000 := by
    rw [div_div]
    norm_num
  rw [this]

theorem except_map_eq_ok {α β : Type} (f : α → β) (x : Except String α) (b : β)
    (h : Except.map f x = Except.ok b) : ∃ a, x = Except.ok a ∧ b = f a := by
  cases x with
  | error e => exact Except.noConfusion h
  | ok a =>
      refine ⟨a, rfl, ?_⟩
      have := Except.ok.inj h
      exact this.symm

/-- **C10**  Whenever the alias-coalesced working set has an `iv` column,
`coalesce_columns` rescales every `iv` cell by 1/100 unconditionally (the
cell is numeric-coerced and then divided by 100, whatever its magnitude or
origin); consequently `standardize` divides `iv` by 100 on each
application, two applications scale it by 1/10000, and `standardize` is
not idempotent on `iv`. -/
theorem coalesce_iv_unconditional_div100 :
    (∀ df : DataFrame, df.Wf → (coalesceAliases df).hasCol "iv" = true →
      ∀ out, coalesce_columns df = Except.ok out →
        out.column "iv" = ((coalesceAliases df).column "iv").map
          (fun col => col.map (fun v => div100 (pd_to_numeric_coerce v)))) ∧
    (∀ q : ℚ, standardize ⟨["iv"], [[Val.num q]]⟩ =
      Except.ok ⟨["iv"], [[Val.num (q / 100)]]⟩) ∧
    (∀ q : ℚ, (standardize ⟨["iv"], [[Val.num q]]⟩).bind standardize =
      Except.ok ⟨["iv"], [[Val.num (q / 10000)]]⟩) ∧
    (standardize ⟨["iv"], [[Val.num 100]]⟩).bind standardize ≠
      standardize ⟨["iv"], [[Val.num 100]]⟩ := by
  refine ⟨?_, standardize_iv_once, standardize_iv_twice, ?_⟩
  · intro df hwf hiv out hok
    unfold coalesce_columns at hok
    obtain ⟨out2, hts, hout⟩ := except_map_eq_ok _ _ _ hok
    obtain ⟨hcols2, hwf2, hcol2⟩ := coalesceTimestamp_ok (coalesceAliases df) out2 hts
    obtain ⟨hcols3, hwf3, hcol3⟩ := coalesceOptType_props out2
    have hwfA : (coalesceAliases df).Wf := coalesceAliases_wf df hwf
    have hiv3 : (coalesceOptType out2).hasCol "iv" = true := by
      rw [hasCol_congr out2 _ hcols3 "iv", hasCol_congr (coalesceAliases df) out2 hcols2 "iv"]
      exact hiv
    rw [hout, coalesceNumeric_iv (coalesceOptType out2) (hwf3 (hwf2 hwfA)) hiv3, hcol3, hcol2]
  · intro hcontra
    rw [standardize_iv_twice 100, standardize_iv_once 100] at hcontra
    have h2 := congrArg DataFrame.rows (Except.ok.inj hcontra)
    have h3 : (100 : ℚ) / 10000 = 100 / 100 := by simpa using h2
    norm_num at h3

/-- Witness for C10's general conjunct at the one-column frame
`iv = [200]`: the working set has an `iv` column, coalescing succeeds, and
the output `iv` column is the input scaled by 1/100. -/
theorem coalesce_iv_unconditional_div100_witness :
    (coalesceAliases ⟨["iv"], [[Val.num 200]]⟩).hasCol "iv" = true ∧
    coalesce_columns ⟨["iv"], [[Val.num 200]]⟩ =
      Except.ok ⟨["iv"], [[Val.num (200 / 100)]]⟩ ∧
    (⟨["iv"], [[Val.num (200 / 100)]]⟩ : DataFrame).column "iv" =
      ((coalesceAliases ⟨["iv"], [[Val.num 200]]⟩).column "iv").map
        (fun col => col.map (fun v => div100 (pd_to_numeric_coerce v))) := by
  have hiv : (coalesceAliases ⟨["iv"], [[Val.num 200]]⟩).hasCol "iv" = true := by
    rw [coalesceAliases_iv_frame 200]
    rfl
  have hwf : (⟨["iv"], [[Val.num 200]]⟩ : DataFrame).Wf := by
    intro r hr
    fin_cases hr
    rfl
  exact ⟨hiv, coalesce_columns_iv_frame 200,
    coalesce_iv_unconditional_div100.1 ⟨["iv"], [[Val.num 200]]⟩ hwf hiv
      ⟨["iv"], [[Val.num (200 / 100)]]⟩ (coalesce_columns_iv_frame 200)⟩

/-! ### Canonicalization: `filter_rename_columns` (C9) -/

theorem forall₂_mem_left {α β : Type} (R : α → β → Prop) :
    ∀ (l : List α) (l2 : List β), List.Forall₂ R l l2 →
      ∀ a ∈ l, ∃ b ∈ l2, R a b
  | [], [], _, a, ha => absurd ha (by simp)
  | x :: xs, y :: ys, List.Forall₂.cons hR hrest, a, ha => by
      rcases List.mem_cons.mp ha with rfl | ha
      · exact ⟨y, List.mem_cons_self y ys, hR⟩
      · rcases forall₂_mem_left R xs ys hrest a ha with ⟨b, hb, hab⟩
        exact ⟨b, List.mem_cons_of_mem y hb, hab⟩

theorem except_ok_or_error {β : Type} (x : Except String β) :
    (∃ b, x = Except.ok b) ∨ (∃ e, x = Except.error e) := by
  cases x with
  | error e => exact Or.inr ⟨e, rfl⟩
  | ok b => exact Or.inl ⟨b, rfl⟩

/-- The column of the projected frame built by `filter_rename_columns`:
looking up a target name returns its source column. -/
theorem projected_column :
    ∀ (idxs : List (String × ℕ)) (rows : List (List Val)) (v : String) (i : ℕ),
      (idxs.map Prod.fst).Nodup → (v, i) ∈ idxs →
      DataFrame.column
        ⟨idxs.map Prod.fst,
         rows.map (fun r : List Val => idxs.map (fun p : String × ℕ => r.getD p.2 Val.null))⟩ v
        = some (rows.map (fun r => r.getD i Val.null))
  | [], _, v, i, _, hmem => absurd hmem (by simp)
  | (v2, i2) :: rest, rows, v, i, hnd, hmem => by
      by_cases hv : v2 = v
      · subst hv
        have hii : i = i2 := by
          rcases List.mem_cons.mp hmem with heq | hmem2
          · exact congrArg Prod.snd heq
          · exfalso
            have : v2 ∈ rest.map Prod.fst := List.mem_map_of_mem Prod.fst hmem2
            exact (List.nodup_cons.mp (by simpa using hnd)).1 this
        subst hii
        simp [DataFrame.column, idxOf?, List.map_map]
      · have hmem2 : (v, i) ∈ rest := by
          rcases List.mem_cons.mp hmem with heq | hmem2
          · exact absurd (congrArg Prod.fst heq).symm hv
          · exact hmem2
        have hnd2 : (rest.map Prod.fst).Nodup := (List.nodup_cons.mp (by simpa using hnd)).2
        have ih := projected_column rest rows v i hnd2 hmem2
        have hj : ∃ j, idxOf? v (rest.map Prod.fst) = some j := by
          rcases hj0 : idxOf? v (rest.map Prod.fst) with _ | j
          · rw [DataFrame.column, hj0] at ih
            exact Option.noConfusion ih
          · exact ⟨j, rfl⟩
        rcases hj with ⟨j, hj⟩
        rw [DataFrame.column, hj] at ih
        simp only [Option.map_some'] at ih
        rw [DataFrame.column]
        simp only [List.map_cons, idxOf?, if_neg hv, hj, Option.map_some']
        rw [← ih]
        congr 1
        rw [List.map_map, List.map_map]
        apply List.map_congr_left
        intro r _
        simp

/-- **C9**  `filter_rename_columns` raises (a `ValueError`) iff some
required canonical source column is absent from the input; when every
required column is present it returns a frame whose columns are exactly
the declared canonical names in declared order, each target column equal
to its source column. -/
theorem filter_rename_columns_spec (df : DataFrame) :
    ((∃ e, filter_rename_columns df = Except.error e) ↔
      ∃ kv ∈ ONLY_AND_RENAMED, kv.1 ∉ df.cols) ∧
    (∀ out, filter_rename_columns df = Except.ok out →
      out.cols = ONLY_AND_RENAMED.map Prod.snd ∧
      ∀ kv ∈ ONLY_AND_RENAMED, out.column kv.2 = df.column kv.1) := by
  have hstep : ∀ kv : String × String,
      (∃ b, (match idxOf? kv.1 df.cols with
        | some i => (Except.ok (kv.2, i) : Except String (String × ℕ))
        | none => Except.error ("ValueError: Column " ++ kv.1 ++ " not found in dataframe"))
        = Except.ok b) ↔ kv.1 ∈ df.cols := by
    intro kv
    rcases hi : idxOf? kv.1 df.cols with _ | i
    · simp only [hi]
      have hnot : kv.1 ∉ df.cols := (idxOf?_eq_none_iff kv.1 df.cols).mp hi
      constructor
      · rintro ⟨b, hb⟩
        exact Except.noConfusion hb
      · intro hm
        exact absurd hm hnot
    · simp only [hi]
      refine ⟨fun _ => ?_, fun _ => ⟨(kv.2, i), rfl⟩⟩
      rw [← idxOf?_isSome_iff kv.1 df.cols, hi]
      rfl
  constructor
  · constructor
    · rintro ⟨e, he⟩
      by_contra hall
      push_neg at hall
      have hok := (mapExcept_isOk_iff _ ONLY_AND_RENAMED).mpr
        (fun kv hkv => (hstep kv).mpr (hall kv hkv))
      rcases hok with ⟨l2, hl2⟩
      unfold filter_rename_columns at he
      rw [hl2] at he
      simp only [Except.map] at he
      exact Except.noConfusion he
    · rintro ⟨kv, hkv, hmem⟩
      rcases except_ok_or_error (filter_rename_columns df) with ⟨out, hout⟩ | ⟨e, he⟩
      · exfalso
        unfold filter_rename_columns at hout
        obtain ⟨idxs, hxs, _⟩ := except_map_eq_ok _ _ _ hout
        have := (mapExcept_isOk_iff _ ONLY_AND_RENAMED).mp ⟨idxs, hxs⟩ kv hkv
        exact hmem ((hstep kv).mp this)
      · exact ⟨e, he⟩
  · intro out hout
    unfold filter_rename_columns at hout
    obtain ⟨idxs, hxs, hmk⟩ := except_map_eq_ok _ _ _ hout
    have hf := mapExcept_ok_forall₂ _ ONLY_AND_RENAMED idxs hxs
    have hrel : List.Forall₂
        (fun (kv : String × String) (p : String × ℕ) =>
          p.1 = kv.2 ∧ idxOf? kv.1 df.cols = some p.2) ONLY_AND_RENAMED idxs := by
      refine List.Forall₂.imp ?_ hf
      intro kv p hp
      rcases hi : idxOf? kv.1 df.cols with _ | i <;> rw [hi] at hp
      · exact Except.noConfusion hp
      · have := Except.ok.inj hp
        exact ⟨by rw [← this], by rw [← this]⟩
    have hcols : idxs.map Prod.fst = ONLY_AND_RENAMED.map Prod.snd :=
      (forall₂_map_eq _ Prod.snd Prod.fst ONLY_AND_RENAMED idxs hrel
        (fun a b hab => hab.1.symm)).symm
    subst hmk
    refine ⟨hcols, ?_⟩
    intro kv hkv
    obtain ⟨p, hpmem, hp1, hp2⟩ := forall₂_mem_left _ ONLY_AND_RENAMED idxs hrel kv hkv
    have hnd : (idxs.map Prod.fst).Nodup := by
      rw [hcols]
      decide
    have hproj := projected_column idxs df.rows kv.2 p.2 hnd (by
      have : p = (kv.2, p.2) := by
        rcases p with ⟨p1, p2⟩
        simp at hp1
        simp [hp1]
      rw [← this]
      exact hpmem)
    rw [hproj, DataFrame.column, hp2]
    rfl

/-- Witness for C9: a frame holding exactly the twenty source columns (one
all-null row) canonicalizes successfully, with the declared column list
and each column carried over; a frame missing them raises. -/
theorem filter_rename_columns_spec_witness :
    (∀ out, filter_rename_columns
        ⟨ONLY_AND_RENAMED.map Prod.fst,
         [List.replicate ONLY_AND_RENAMED.length Val.null]⟩ = Except.ok out →
      out.cols = ONLY_AND_RENAMED.map Prod.snd) ∧
    (∃ e, filter_rename_columns ⟨["x"], []⟩ = Except.error e) := by
  constructor
  · intro out hout
    exact ((filter_rename_columns_spec _).2 out hout).1
  · refine ((filter_rename_columns_spec ⟨["x"], []⟩).1).mpr ?_
    refine ⟨("slot_time_utc", "timestamp"), by decide, by decide⟩

end NVH
